import Mathlib

/-!
Verification development for the sph2d repository (2D SPH fluid simulation).

The Rust sources under src/ are shallowly embedded: machine floats (the
repository's `Real = f32`) are embedded as rational numbers `ℚ`, so that every
definition is executable and concrete runs are decidable; `Vec` is the 2D
vector type `ℚ × ℚ`.  The float square root has no rational counterpart, so
it is threaded through as an explicit function parameter `fsqrt : ℚ → ℚ`;
theorems that depend on particular square-root values (always perfect squares,
on which IEEE-754 sqrt is exact) carry them as hypotheses, discharged in the
witnesses with `ratSqrt` below.  Code that can panic is embedded as
`Option`-returning functions where the panic is reachable.

The modules `smoothing_kernel.rs`, `morton.rs` and `units.rs` are referenced
by the sources but are not present under src/; the definitions that depend on
them are modelled from the spec and carry a doc comment saying so.
-/

namespace Sph2d

/-! ## 2D vectors over ℚ -/

abbrev Vec := ℚ × ℚ

/-- Squared euclidean norm of a 2D vector (nalgebra `norm_squared`). -/
def normSq (v : Vec) : ℚ := v.1 * v.1 + v.2 * v.2

/-- Squared distance between two points (nalgebra `distance_squared`). -/
def distSq (a b : Vec) : ℚ := normSq (a - b)

/-- An exact rational square root on perfect squares, used only to instantiate
the abstract `fsqrt` parameter in witnesses. -/
def ratSqrt (q : ℚ) : ℚ := (Nat.sqrt (q.num.toNat * q.den) : ℚ) / (q.den : ℚ)

/-- `ggez::graphics::Rect` (only the fields the embedded code reads). -/
structure Rect where
  x : ℚ
  y : ℚ
  w : ℚ
  h : ℚ

/-! ## HydroParticles (src/hydroparticles.rs)

Modelled from the spec where the kernel module is concerned: the
`smoothing_kernel` module (Poly6 / Spiky / Viscosity) is absent from src/, so
the three kernels are abstract function fields of the state — `density_kernel`
takes `(distance_squared, distance)`, `pressure_kernel_gradient` takes the
separation vector and `(distance_squared, distance)`, and
`viscosity_kernel_laplacian` takes `(distance_squared, distance)`, exactly the
call shapes used by hydroparticles.rs. -/

structure HydroParticles where
  positions : List Vec
  velocities : List Vec
  accellerations : List Vec
  boundary_particles : List Vec
  smoothing_length_sq : ℚ
  particle_density : ℚ
  fluid_density : ℚ
  fluid_speedofsound_sq : ℚ
  fluid_viscosity : ℚ
  density_kernel : ℚ → ℚ → ℚ
  pressure_kernel_gradient : Vec → ℚ → ℚ → Vec
  viscosity_kernel_laplacian : ℚ → ℚ → ℚ
  boundary_force_factor : ℚ
  densities : List ℚ

namespace HydroParticles

/-- `HydroParticles::new`.  `fsqrt` is the float square root; the kernel
constructors are passed in as functions of the smoothing length (the kernel
module itself is absent from src/). -/
def new (fsqrt : ℚ → ℚ)
    (smoothing_factor particle_density fluid_density fluid_speedofsound fluid_viscosity : ℚ)
    (mkPoly6 : ℚ → ℚ → ℚ → ℚ) (mkSpiky : ℚ → Vec → ℚ → ℚ → Vec)
    (mkViscosity : ℚ → ℚ → ℚ → ℚ) : HydroParticles :=
  let smoothing_length := 2 * (0.5 / fsqrt particle_density) * smoothing_factor
  { positions := []
    velocities := []
    accellerations := []
    boundary_particles := []
    smoothing_length_sq := smoothing_length * smoothing_length
    particle_density := particle_density
    fluid_density := fluid_density
    fluid_speedofsound_sq := fluid_speedofsound * fluid_speedofsound
    fluid_viscosity := fluid_viscosity
    density_kernel := mkPoly6 smoothing_length
    pressure_kernel_gradient := mkSpiky smoothing_length
    viscosity_kernel_laplacian := mkViscosity smoothing_length
    boundary_force_factor := 10
    densities := [] }

/-- `HydroParticles::particle_mass`. -/
def particle_mass (s : HydroParticles) : ℚ := s.fluid_density / s.particle_density

/-- `HydroParticles::pressure` (isothermal equation of state). -/
def pressure (s : HydroParticles) (local_density : ℚ) : ℚ :=
  s.fluid_speedofsound_sq * (local_density - s.fluid_density)

/-- `HydroParticles::num_particles_per_meter`. -/
def num_particles_per_meter (fsqrt : ℚ → ℚ) (s : HydroParticles) : ℚ :=
  fsqrt s.particle_density

/-- `HydroParticles::add_fluid_rect`.  `rnd k` stands for the `k`-th call to
`Vector::new_random()` (the jitter randomness, passed in explicitly). -/
def add_fluid_rect (fsqrt : ℚ → ℚ) (s : HydroParticles) (fluid_rect : Rect)
    (jitter_amount : ℚ) (rnd : ℕ → Vec) : HydroParticles :=
  let npm := num_particles_per_meter fsqrt s
  let num_particles_x : ℕ := max 1 ⌊fluid_rect.w * npm⌋₊
  let num_particles_y : ℕ := max 1 ⌊fluid_rect.h * npm⌋₊
  let num_particles := num_particles_x * num_particles_y
  let bottom_left : Vec := (fluid_rect.x, fluid_rect.y)
  let step : ℚ :=
    min (fluid_rect.w / (num_particles_x : ℚ)) (fluid_rect.h / (num_particles_y : ℚ))
  let jitter_factor := step * jitter_amount
  { s with
    positions := s.positions ++
      (List.range num_particles_y).flatMap (fun y =>
        (List.range num_particles_x).map (fun x =>
          let jitter : Vec :=
            jitter_factor • ((0.5 : ℚ) • rnd (y * num_particles_x + x) + ((0.5 : ℚ), (0.5 : ℚ)))
          bottom_left + jitter + (step * (x : ℚ), step * (y : ℚ))))
    velocities := s.velocities ++ List.replicate num_particles 0
    densities := s.densities ++ List.replicate num_particles 0
    accellerations := s.accellerations ++ List.replicate num_particles 0 }

/-- The push loop of `add_boundary_line`: starting at `pos`, push `n` points
advancing by `step` after each push. -/
def lineAux (pos step : Vec) : ℕ → List Vec
  | 0 => []
  | n + 1 => pos :: lineAux (pos + step) step n

/-- `HydroParticles::add_boundary_line`. -/
def add_boundary_line (fsqrt : ℚ → ℚ) (s : HydroParticles) (start stop : Vec) :
    HydroParticles :=
  let distance := fsqrt (distSq start stop)
  let npm := num_particles_per_meter fsqrt s
  let num_shadow_particles : ℕ := max 1 ⌊distance * npm⌋₊
  let step : Vec := ((num_shadow_particles : ℚ))⁻¹ • (stop - start)
  { s with boundary_particles := s.boundary_particles ++ lineAux start step num_shadow_particles }

/-- `HydroParticles::update_densities`: zero all densities, then for every
particle add the self contribution, the symmetric fluid-pair contributions
(inner loop starts at `i + 1` and writes both slots) and the boundary
contributions. -/
def update_densities (fsqrt : ℚ → ℚ) (s : HydroParticles) : HydroParticles :=
  let mass := s.particle_mass
  let n := s.positions.length
  let zeroed : List ℚ := List.replicate s.densities.length 0
  let densities := (List.range n).foldl (fun d i =>
    let ri := s.positions.getD i 0
    let d := d.set i (d.getD i 0 + s.density_kernel 0 0 * mass)
    let d := ((List.range n).drop (i + 1)).foldl (fun d j =>
      let rj := s.positions.getD j 0
      let r_sq := distSq ri rj
      if r_sq > s.smoothing_length_sq then d
      else
        let contribution := s.density_kernel r_sq (fsqrt r_sq) * mass
        (d.set i (d.getD i 0 + contribution)).set j (d.getD j 0 + contribution)) d
    s.boundary_particles.foldl (fun d rj =>
      let r_sq := distSq ri rj
      if r_sq > s.smoothing_length_sq then d
      else d.set i (d.getD i 0 + s.density_kernel r_sq (fsqrt r_sq) * mass)) d) zeroed
  { s with densities := densities }

/-- The gravity value hard-coded in `HydroParticles::update_accellerations`:
`Vector::new(0.0, -9.81) * 0.01`. -/
def gravityHP : Vec := (0.01 : ℚ) • ((0 : ℚ), (-9.81 : ℚ))

/-- The pressure-plus-viscosity acceleration contribution of the in-range
fluid pair `(i, j)` in `update_accellerations` (the value called `ftotal` in
the source). -/
def pair_ftotal (fsqrt : ℚ → ℚ) (s : HydroParticles) (mass : ℚ) (i j : ℕ) : Vec :=
  let ri := s.positions.getD i 0
  let rhoi := s.densities.getD i 0
  let pi_ := s.pressure rhoi
  let rj := s.positions.getD j 0
  let rhoj := s.densities.getD j 0
  let ri_rj := ri - rj
  let r_sq := normSq ri_rj
  let r := fsqrt r_sq
  let pj := s.pressure rhoj
  let fpressure_unsmoothed := -mass * (pi_ + pj) / (2 * rhoi * rhoj)
  let fpressure := fpressure_unsmoothed • s.pressure_kernel_gradient ri_rj r_sq r
  let velocitydiff := s.velocities.getD j 0 - s.velocities.getD i 0
  let fviscosity :=
    (s.fluid_viscosity * mass * s.viscosity_kernel_laplacian r_sq r / (rhoi * rhoj)) • velocitydiff
  fpressure + fviscosity

/-- The body of the symmetric pair loop of `update_accellerations` for the
pair `(i, j)`: the pair contribution added to slot `i` and subtracted from
slot `j` (Newton's third law), or the unchanged accumulator when the pair is
out of interaction range. -/
def pair_step (fsqrt : ℚ → ℚ) (s : HydroParticles) (mass : ℚ) (i : ℕ)
    (acc : List Vec) (j : ℕ) : List Vec :=
  let ri := s.positions.getD i 0
  let rj := s.positions.getD j 0
  let r_sq := normSq (ri - rj)
  if r_sq > s.smoothing_length_sq then acc
  else
    let ftotal := pair_ftotal fsqrt s mass i j
    (acc.set i (acc.getD i 0 + ftotal)).set j (acc.getD j 0 - ftotal)

/-- The body of the boundary loop of `update_accellerations` for particle `i`
and boundary point `rj`. -/
def boundary_step (fsqrt : ℚ → ℚ) (s : HydroParticles) (i : ℕ)
    (acc : List Vec) (rj : Vec) : List Vec :=
  let ri := s.positions.getD i 0
  let ri_rj := ri - rj
  let r_sq := normSq ri_rj
  if r_sq > s.smoothing_length_sq then acc
  else
    acc.set i (acc.getD i 0 +
      (s.boundary_force_factor * s.density_kernel r_sq (fsqrt r_sq) / r_sq) • ri_rj)

/-- The body of the outer particle loop of `update_accellerations`: for
particle `i`, the symmetric pair loop over `j > i` followed by the boundary
loop. -/
def accel_outer_step (fsqrt : ℚ → ℚ) (s : HydroParticles) (mass : ℚ) (n : ℕ)
    (acc : List Vec) (i : ℕ) : List Vec :=
  let acc := ((List.range n).drop (i + 1)).foldl (pair_step fsqrt s mass i) acc
  s.boundary_particles.foldl (boundary_step fsqrt s i) acc

/-- `HydroParticles::update_accellerations`: reset every acceleration to the
(scaled) gravity, then for every particle `i` run the symmetric pair loop over
`j > i` followed by the boundary loop. -/
def update_accellerations (fsqrt : ℚ → ℚ) (s : HydroParticles) : HydroParticles :=
  let mass := s.particle_mass
  let n := min s.positions.length s.densities.length
  let reset : List Vec := List.replicate s.accellerations.length gravityHP
  let acc := (List.range n).foldl (accel_outer_step fsqrt s mass n) reset
  { s with accellerations := acc }

/-- `HydroParticles::physics_step`: leapfrog drift and first half kick, then
density update, then force update, then second half kick. -/
def physics_step (fsqrt : ℚ → ℚ) (s : HydroParticles) (dt : ℚ) : HydroParticles :=
  let s1 := { s with
    positions := List.zipWith (fun (pv : Vec × Vec) a => pv.1 + dt • pv.2 + (0.5 * dt * dt) • a)
      (s.positions.zip s.velocities) s.accellerations
    velocities := List.zipWith (fun v a => v + (0.5 * dt) • a) s.velocities s.accellerations }
  let s2 := update_densities fsqrt s1
  let s3 := update_accellerations fsqrt s2
  { s3 with
    velocities := List.zipWith (fun v a => v + (0.5 * dt) • a) s3.velocities s3.accellerations }

end HydroParticles

/-! ## FluidParticleWorld (src/sph/fluidparticleworld.rs) -/

structure FluidParticleWorld where
  positions : List Vec
  velocities : List Vec
  accellerations : List Vec
  densities : List ℚ
  boundary_particles : List Vec
  smoothing_length : ℚ
  particle_density : ℚ
  fluid_density : ℚ
  density_kernel : ℚ → ℚ → ℚ
  gravity : Vec

namespace FluidParticleWorld

/-- `FluidParticleWorld::particle_mass`. -/
def particle_mass (w : FluidParticleWorld) : ℚ := w.fluid_density / w.particle_density

/-- `FluidParticleWorld::num_particles_per_meter`. -/
def num_particles_per_meter (fsqrt : ℚ → ℚ) (w : FluidParticleWorld) : ℚ :=
  fsqrt w.particle_density

/-- `FluidParticleWorld::add_fluid_rect` (textually the same algorithm as
`HydroParticles::add_fluid_rect`). -/
def add_fluid_rect (fsqrt : ℚ → ℚ) (w : FluidParticleWorld) (fluid_rect : Rect)
    (jitter_amount : ℚ) (rnd : ℕ → Vec) : FluidParticleWorld :=
  let npm := num_particles_per_meter fsqrt w
  let num_particles_x : ℕ := max 1 ⌊fluid_rect.w * npm⌋₊
  let num_particles_y : ℕ := max 1 ⌊fluid_rect.h * npm⌋₊
  let num_particles := num_particles_x * num_particles_y
  let bottom_left : Vec := (fluid_rect.x, fluid_rect.y)
  let step : ℚ :=
    min (fluid_rect.w / (num_particles_x : ℚ)) (fluid_rect.h / (num_particles_y : ℚ))
  let jitter_factor := step * jitter_amount
  { w with
    positions := w.positions ++
      (List.range num_particles_y).flatMap (fun y =>
        (List.range num_particles_x).map (fun x =>
          let jitter : Vec :=
            jitter_factor • ((0.5 : ℚ) • rnd (y * num_particles_x + x) + ((0.5 : ℚ), (0.5 : ℚ)))
          bottom_left + jitter + (step * (x : ℚ), step * (y : ℚ))))
    velocities := w.velocities ++ List.replicate num_particles 0
    densities := w.densities ++ List.replicate num_particles 0
    accellerations := w.accellerations ++ List.replicate num_particles 0 }

/-- `FluidParticleWorld::add_boundary_line` (textually the same algorithm as
`HydroParticles::add_boundary_line`). -/
def add_boundary_line (fsqrt : ℚ → ℚ) (w : FluidParticleWorld) (start stop : Vec) :
    FluidParticleWorld :=
  let distance := fsqrt (distSq start stop)
  let npm := num_particles_per_meter fsqrt w
  let num_shadow_particles : ℕ := max 1 ⌊distance * npm⌋₊
  let step : Vec := ((num_shadow_particles : ℚ))⁻¹ • (stop - start)
  { w with boundary_particles :=
      w.boundary_particles ++ HydroParticles.lineAux start step num_shadow_particles }

/-- `FluidParticleWorld::update_densities`: a parallel per-output gather — for
every particle, start from the explicit self contribution, then add one term
for every fluid particle within range (the loop runs over ALL positions,
including the particle itself) and one term for every boundary particle within
range. -/
def update_densities (fsqrt : ℚ → ℚ) (w : FluidParticleWorld) : FluidParticleWorld :=
  let mass := w.particle_mass
  let smoothing_length_sq := w.smoothing_length * w.smoothing_length
  { w with densities := (w.densities.zip w.positions).map (fun dri =>
      let ri := dri.2
      let d := w.density_kernel 0 0 * mass
      let d := w.positions.foldl (fun d rj =>
        let r_sq := distSq ri rj
        if r_sq > smoothing_length_sq then d
        else d + w.density_kernel r_sq (fsqrt r_sq) * mass) d
      w.boundary_particles.foldl (fun d rj =>
        let r_sq := distSq ri rj
        if r_sq > smoothing_length_sq then d
        else d + w.density_kernel r_sq (fsqrt r_sq) * mass) d) }

end FluidParticleWorld

end Sph2d

namespace Sph2d

/-! ## Morton codes (src/sph/morton.rs — absent from src/, modelled from the spec)

The spec (§4.2, glossary) prescribes: map a cell's integer coordinates to one
code by interleaving the bits of x and y (Z-order), with the code space
wrapping at a fixed bit width (16 bits per axis into a 32-bit code); a code is
inside a query rectangle iff its decoded coordinates are inside; BIGMIN is the
smallest code greater than the current one that can lie inside the rectangle.
Bit interleaving is expressed arithmetically: spreading the bits of x puts bit
i at position 2i, i.e. contributes x_i * 4^i, and oring the spread x with the
shifted spread y is addition because the bit positions are disjoint. -/

namespace Morton

/-- Spread the low `n` bits of `x`, sending bit `i` to bit `2 * i`. -/
def part1by1Aux : ℕ → ℕ → ℕ
  | 0, _ => 0
  | n + 1, x => x % 2 + 4 * part1by1Aux n (x / 2)

/-- Modelled from the spec: `morton::part_1by1`, spreading the low 16 bits. -/
def part_1by1 (x : ℕ) : ℕ := part1by1Aux 16 x

/-- Modelled from the spec: `morton::encode` interleaves the bits of `x` and
`y` (`part_1by1(x) | (part_1by1(y) << 1)`; the or is addition because the bit
positions are disjoint). -/
def encode (x y : ℕ) : ℕ := part_1by1 x + 2 * part_1by1 y

/-- The value of the even-position bits among the low `2 * n` bits of `c`
(kept at their positions). -/
def evenValAux : ℕ → ℕ → ℕ
  | 0, _ => 0
  | n + 1, c => c % 2 + 4 * evenValAux n (c / 4)

/-- The value of the even-position bits of a 32-bit code (kept at their
positions): the mask `c & 0x55555555`. -/
def evenVal (c : ℕ) : ℕ := evenValAux 16 c

/-- The value of the odd-position bits among the low `2 * n` bits of `c`
(kept at their positions). -/
def oddValAux : ℕ → ℕ → ℕ
  | 0, _ => 0
  | n + 1, c => 2 * ((c / 2) % 2) + 4 * oddValAux n (c / 4)

/-- The value of the odd-position bits of a 32-bit code (kept at their
positions): the mask `c & 0xAAAAAAAA`. -/
def oddVal (c : ℕ) : ℕ := oddValAux 16 c

/-- Modelled from the spec: `morton::is_in_rect_presplit` — the decoded
coordinates of `cidx` lie inside the rectangle given by the pre-split min/max
x-bits and (shifted) y-bits.  Comparing the masked spread coordinates
numerically is equivalent to comparing the coordinates themselves. -/
def is_in_rect_presplit (cidx min_xbits min_ybits max_xbits max_ybits : ℕ) : Bool :=
  min_xbits ≤ evenVal cidx && evenVal cidx ≤ max_xbits &&
    min_ybits ≤ oddVal cidx && oddVal cidx ≤ max_ybits

/-- Linear search for the smallest in-rectangle code, starting at `c`. -/
def bigminAux (min_xbits min_ybits max_xbits max_ybits : ℕ) : ℕ → ℕ → ℕ
  | c, 0 => c
  | c, fuel + 1 =>
    if is_in_rect_presplit c min_xbits min_ybits max_xbits max_ybits then c
    else bigminAux min_xbits min_ybits max_xbits max_ybits (c + 1) fuel

/-- Modelled from the spec: `morton::find_bigmin` computes the smallest code
greater than `cidx` that can lie in the rectangle spanned by `cidx_min` and
`cidx_max` (spec §4.2: BIGMIN); when no such code exists it answers
`cidx_max + 1`, past the query range. -/
def find_bigmin (cidx cidx_min cidx_max : ℕ) : ℕ :=
  bigminAux (evenVal cidx_min) (oddVal cidx_min) (evenVal cidx_max) (oddVal cidx_max)
    (cidx + 1) (cidx_max - cidx)

end Morton

/-! ## NeighborhoodSearch (src/sph/neighborhood_search.rs) -/

/-- `CellIndex::max_value()` (`u32::MAX`). -/
def u32Max : ℕ := 4294967295

/-- `neighborhood_search::Particle`: a particle id paired with its cell code. -/
structure Particle where
  pidx : ℕ
  cidx : ℕ
deriving DecidableEq

/-- `neighborhood_search::CellPos`. -/
structure CellPos where
  x : ℕ
  y : ℕ
deriving DecidableEq

/-- `neighborhood_search::Cell`: a cell code and the index into the sorted
particle array where its run starts. -/
structure Cell where
  first_particle : ℕ
  cidx : ℕ
deriving DecidableEq

structure NeighborhoodSearch where
  radius : ℚ
  cell_size_inv : ℚ
  particles : List Particle
  cells : List Cell
  grid_min : Vec
deriving DecidableEq

namespace NeighborhoodSearch

/-- `NeighborhoodSearch::new`. -/
def new (radius : ℚ) : NeighborhoodSearch :=
  { radius := radius
    cell_size_inv := 1 / (radius * 2)
    particles := []
    cells := []
    grid_min := (-100, -100) }

/-- `NeighborhoodSearch::position_to_cellpos`.  The Rust `f32 as u32` cast
truncates toward zero and saturates: negative values go to 0 (as `Nat.floor`
does on ℚ) and values at or above `u32::MAX` go to `u32::MAX`. -/
def position_to_cellpos (grid_min : Vec) (cell_size_inv : ℚ) (position : Vec) : CellPos :=
  let cellspace := cell_size_inv • (position - grid_min)
  { x := min ⌊cellspace.1⌋₊ u32Max, y := min ⌊cellspace.2⌋₊ u32Max }

/-- `NeighborhoodSearch::cellpos_to_cidx`. -/
def cellpos_to_cidx (cellpos : CellPos) : ℕ := Morton.encode cellpos.x cellpos.y

/-- `NeighborhoodSearch::position_to_cidx`. -/
def position_to_cidx (grid_min : Vec) (cell_size_inv : ℚ) (position : Vec) : ℕ :=
  cellpos_to_cidx (position_to_cellpos grid_min cell_size_inv position)

/-- The cell-compression loop of `NeighborhoodSearch::update`: walk the sorted
particle array with the running index `i` and the previous cell code `prev`
(initially `u32::MAX`), pushing a cell whenever the code changes. -/
def buildCellsAux : List Particle → ℕ → ℕ → List Cell
  | [], _, _ => []
  | p :: rest, i, prev =>
    if p.cidx ≠ prev then
      { first_particle := i, cidx := p.cidx } :: buildCellsAux rest (i + 1) p.cidx
    else buildCellsAux rest (i + 1) prev

/-- The size-adjustment step of `NeighborhoodSearch::update`: keep the old
particle entries and append fresh ones (cell code 0) for the new ids. -/
def extendedParticles (ns : NeighborhoodSearch) (positions : List Vec) : List Particle :=
  ns.particles ++
    (List.range' ns.particles.length (positions.length - ns.particles.length)).map
      (fun i => { pidx := i, cidx := 0 })

/-- The cell-code update and sort of `NeighborhoodSearch::update`: recompute
every entry's cell code from its position, then sort by cell code. -/
def sortedParticles (ns : NeighborhoodSearch) (positions : List Vec) : List Particle :=
  ((extendedParticles ns positions).map (fun p =>
    { pidx := p.pidx
      cidx := position_to_cidx ns.grid_min ns.cell_size_inv
        (positions.getD p.pidx 0) })).insertionSort (fun a b => a.cidx ≤ b.cidx)

/-- The compacted cell table of `NeighborhoodSearch::update`: one entry per
run of equal codes, terminated by the sentinel cell. -/
def builtCells (ns : NeighborhoodSearch) (positions : List Vec) : List Cell :=
  buildCellsAux (sortedParticles ns positions) 0 u32Max ++
    [{ first_particle := (sortedParticles ns positions).length, cidx := u32Max }]

/-- `NeighborhoodSearch::update`.  Returns `none` exactly when the Rust code
panics: when the particle count decreased (the `unimplemented!` arm, hit
before any state is modified), or when a stored particle id is out of range of
the position array (an out-of-bounds index in the cell-code loop). -/
def update (ns : NeighborhoodSearch) (positions : List Vec) : Option NeighborhoodSearch :=
  if positions.length < ns.particles.length then none
  else if (extendedParticles ns positions).all (fun p => p.pidx < positions.length) then
    some { ns with particles := sortedParticles ns positions
                   cells := builtCells ns positions }
  else none

/-- The linear-scan tail of `NeighborhoodSearch::find_next_cell`, instrumented:
returns the result together with the list of array indices it reads.  The
first argument counts the remaining positions `hi - lo` (it is kept exactly in
step with `lo`, so the recursion is structural). -/
def linearScanAux (cells : List Cell) (cidx hi : ℕ) : ℕ → ℕ → ℕ × List ℕ
  | 0, _ => (hi, [])
  | fuel + 1, lo =>
    if lo < hi then
      if (cells.getD lo { first_particle := 0, cidx := 0 }).cidx ≥ cidx then (lo, [lo])
      else
        let r := linearScanAux cells cidx hi fuel (lo + 1)
        (r.1, lo :: r.2)
    else (hi, [])

/-- The linear scan over `[lo, hi)` of `find_next_cell`. -/
def linearScanGo (cells : List Cell) (cidx : ℕ) (lo hi : ℕ) : ℕ × List ℕ :=
  linearScanAux cells cidx hi (hi - lo) lo

/-- The binary-halving loop of `NeighborhoodSearch::find_next_cell`,
instrumented with the list of array indices it reads (each one read by
`get_unchecked` in the Rust source).  The first argument is structural fuel;
`range` halves every iteration while staying above 16, so `range` itself is
always enough fuel, and on exhaustion the remaining work is the same linear
scan the loop would finish with. -/
def findNextCellAux (cells : List Cell) (cidx : ℕ) : ℕ → ℕ → ℕ → ℕ → ℕ × List ℕ
  | 0, lo, hi, _ => linearScanGo cells cidx lo hi
  | fuel + 1, lo, hi, range =>
    if range > 16 then
      let range' := range / 2
      let mid := lo + range'
      let c := (cells.getD mid { first_particle := 0, cidx := 0 }).cidx
      if c > cidx then
        let r := findNextCellAux cells cidx fuel lo mid range'
        (r.1, mid :: r.2)
      else if c < cidx then
        let r := findNextCellAux cells cidx fuel mid hi range'
        (r.1, mid :: r.2)
      else (mid, [mid])
    else linearScanGo cells cidx lo hi

/-- The `while range > 16` halving loop of `find_next_cell` followed by the
linear scan. -/
def findNextCellGo (cells : List Cell) (cidx : ℕ) (lo hi range : ℕ) : ℕ × List ℕ :=
  findNextCellAux cells cidx range lo hi range

/-- `NeighborhoodSearch::find_next_cell`: the array index of the first cell
with a code greater than or equal to `cidx` (or `cells.len()`). -/
def find_next_cell (cells : List Cell) (cidx : ℕ) : ℕ :=
  (findNextCellGo cells cidx 0 cells.length cells.length).1

/-- The indices read by `find_next_cell` (for the bounds-safety claim). -/
def find_next_cell_reads (cells : List Cell) (cidx : ℕ) : List ℕ :=
  (findNextCellGo cells cidx 0 cells.length cells.length).2

/-- The inner skip loop of `foreach_potential_neighbor`: advance (by one cell,
or by a BIGMIN jump after more than `MAX_CONSECUTIVE_CELL_MISSES = 8` misses)
until the current cell is inside the query rectangle.  `some (some i)` means
the cell at array index `i` is in the rectangle; `some none` means the loop
hit a cell code above `cidx_max` and the whole query returns; `none` models a
Rust panic (out-of-bounds cell access; the fuel never runs out on the
executions reasoned about below). -/
def skipLoop (cells : List Cell) (minxb minyb maxxb maxyb cidx_min cidx_max : ℕ) :
    ℕ → ℕ → ℕ → Option (Option ℕ)
  | _, _, 0 => none
  | idx, num_misses, fuel + 1 =>
    match cells.get? idx with
    | none => none
    | some cell =>
      if Morton.is_in_rect_presplit cell.cidx minxb minyb maxxb maxyb then some (some idx)
      else
        let num_misses' := num_misses + 1
        let idx' :=
          if num_misses' > 8 then
            idx + find_next_cell (cells.drop idx) (Morton.find_bigmin cell.cidx cidx_min cidx_max)
          else idx + 1
        match cells.get? idx' with
        | none => none
        | some cell' =>
          if cell'.cidx > cidx_max then some none
          else skipLoop cells minxb minyb maxxb maxyb cidx_min cidx_max idx' num_misses' fuel

/-- The particle-range loop of `foreach_potential_neighbor`: starting from an
in-rectangle cell at `idx`, advance to the first cell outside the rectangle
and return its array index and its `first_particle` (the exclusive end of the
particle range), checking the `assert_ne!(cell.cidx, cidx_max)` of the source
(`none` models a panic). -/
def consumeScan (cells : List Cell) (minxb minyb maxxb maxyb cidx_max : ℕ) :
    ℕ → ℕ → Option (ℕ × ℕ)
  | _, 0 => none
  | idx, fuel + 1 =>
    match cells.get? (idx + 1) with
    | none => none
    | some cell =>
      if Morton.is_in_rect_presplit cell.cidx minxb minyb maxxb maxyb then
        consumeScan cells minxb minyb maxxb maxyb cidx_max (idx + 1) fuel
      else if cell.cidx = cidx_max then none
      else some (idx + 1, cell.first_particle)

/-- Read the particle ids of the sorted-array range `[first, last)`
(`self.particles[p].pidx`; `none` models an out-of-bounds panic). -/
def particleIds (particles : List Particle) : List ℕ → Option (List ℕ)
  | [] => some []
  | p :: rest =>
    match particles.get? p with
    | none => none
    | some pr => (particleIds particles rest).map (fun ids => pr.pidx :: ids)

/-- The outer `while cell.cidx <= cidx_max` loop of
`foreach_potential_neighbor`, returning the list of visited particle ids in
visit order. -/
def outerLoop (cells : List Cell) (particles : List Particle)
    (minxb minyb maxxb maxyb cidx_min cidx_max : ℕ) : ℕ → ℕ → Option (List ℕ)
  | _, 0 => none
  | idx, fuel + 1 =>
    match cells.get? idx with
    | none => none
    | some cell =>
      if cell.cidx > cidx_max then some []
      else
        match skipLoop cells minxb minyb maxxb maxyb cidx_min cidx_max idx 0
            (cells.length + 1) with
        | none => none
        | some none => some []
        | some (some idxA) =>
          match cells.get? idxA with
          | none => none
          | some cellA =>
            match consumeScan cells minxb minyb maxxb maxyb cidx_max idxA
                (cells.length + 1) with
            | none => none
            | some (idxB, last) =>
              match particleIds particles
                  (List.range' cellA.first_particle (last - cellA.first_particle)) with
              | none => none
              | some ids =>
                if idxB + 1 ≥ cells.length then some ids
                else
                  (outerLoop cells particles minxb minyb maxxb maxyb cidx_min cidx_max
                    (idxB + 1) fuel).map (fun rest => ids ++ rest)

/-- `NeighborhoodSearch::foreach_potential_neighbor`, returning the list of
particle ids passed to the visitor (`none` models a Rust panic). -/
def foreach_potential_neighbor (ns : NeighborhoodSearch) (position : Vec) :
    Option (List ℕ) :=
  let cellpos_min := position_to_cellpos ns.grid_min ns.cell_size_inv
    (position - (ns.radius, ns.radius))
  let cidx_min_xbits := Morton.part_1by1 cellpos_min.x
  let cidx_min_ybits := 2 * Morton.part_1by1 cellpos_min.y
  let cidx_min := cidx_min_xbits + cidx_min_ybits
  let cellpos_max := position_to_cellpos ns.grid_min ns.cell_size_inv
    (position + (ns.radius, ns.radius))
  let cidx_max_xbits := Morton.part_1by1 cellpos_max.x
  let cidx_max_ybits := 2 * Morton.part_1by1 cellpos_max.y
  let cidx_max := cidx_max_xbits + cidx_max_ybits
  outerLoop ns.cells ns.particles cidx_min_xbits cidx_min_ybits cidx_max_xbits
    cidx_max_ybits cidx_min cidx_max (find_next_cell ns.cells cidx_min)
    (ns.cells.length + 1)

end NeighborhoodSearch

end Sph2d

namespace Sph2d

/-! ## Concrete states used by witnesses and counterexamples -/

/-- A single-particle FluidParticleWorld (mass 1, smoothing length 0.1),
parameterized by the density kernel. -/
def fpwSingle (w : ℚ → ℚ → ℚ) : FluidParticleWorld :=
  { positions := [(0, 0)]
    velocities := [(0, 0)]
    accellerations := [(0, 0)]
    densities := [0]
    boundary_particles := []
    smoothing_length := 1 / 10
    particle_density := 100
    fluid_density := 100
    density_kernel := w
    gravity := (0, -981 / 100) }

/-- A one-particle NeighborhoodSearch state (as left by a previous rebuild
over one position). -/
def ns1 : NeighborhoodSearch :=
  { radius := 1
    cell_size_inv := 1 / 2
    particles := [{ pidx := 0, cidx := 0 }]
    cells := []
    grid_min := (-100, -100) }

/-! ## C5: shrinking the particle set between rebuilds fails loudly -/

/-- C5: if `update` is called with fewer positions than the previous rebuild's
particle count, the call fails (the `unimplemented!` panic, modelled as
`none`); the check is the first statement of `update`, so no state is
modified. -/
theorem update_shrink_fails (ns : NeighborhoodSearch) (positions : List Vec)
    (h : positions.length < ns.particles.length) :
    NeighborhoodSearch.update ns positions = none := by
  unfold NeighborhoodSearch.update
  simp [h]

/-- Witness for C5: a one-particle index rejects a rebuild over zero
positions. -/
theorem update_shrink_fails_witness :
    ([] : List Vec).length < ns1.particles.length ∧
      NeighborhoodSearch.update ns1 [] = none :=
  ⟨by decide, update_shrink_fails ns1 [] (by decide)⟩

/-! ## C9: boundary particles are never written by the solver passes -/

/-- C9: one `physics_step`, one density pass and one force pass (in both
implementations) leave the boundary-particle array unchanged; boundary
particles are only read, never moved, accelerated, or assigned a density
(they have no density or acceleration state at all). -/
theorem boundary_particles_frame (fsqrt : ℚ → ℚ) (s : HydroParticles) (dt : ℚ)
    (w : FluidParticleWorld) :
    (HydroParticles.physics_step fsqrt s dt).boundary_particles = s.boundary_particles ∧
    (HydroParticles.update_densities fsqrt s).boundary_particles = s.boundary_particles ∧
    (HydroParticles.update_accellerations fsqrt s).boundary_particles = s.boundary_particles ∧
    (FluidParticleWorld.update_densities fsqrt w).boundary_particles = w.boundary_particles :=
  ⟨rfl, rfl, rfl, rfl⟩

/-! ## C1: the FluidParticleWorld density pass double-counts the self term -/

/-- C1 (divergence witness): for a single particle and no boundary particles,
`FluidParticleWorld::update_densities` produces `2 * mass * W(0,0)` — the
explicit self-contribution plus the term the all-positions loop adds for
`j = i` — not the `mass * W(0,0)` the spec states (here `mass = 1`).  The
sibling implementation `HydroParticles::update_densities` (whose pair loop
starts at `i + 1`) matches the spec. -/
theorem fpw_update_densities_doubles_self (w : ℚ → ℚ → ℚ) :
    (FluidParticleWorld.update_densities ratSqrt (fpwSingle w)).densities = [2 * w 0 0] := by
  have h0 : ratSqrt 0 = 0 := by simp [ratSqrt]
  simp [FluidParticleWorld.update_densities, fpwSingle, FluidParticleWorld.particle_mass,
    distSq, normSq, h0]
  norm_num
  ring

end Sph2d

namespace Sph2d

/-! ## C4: the single-particle leapfrog step -/

/-- A single fluid particle at rest at the origin with zero stored
acceleration, no boundary particles, parameterized by the kernels (which
cannot influence a single-particle step: both pair loops are empty). -/
def hpSingle (dk : ℚ → ℚ → ℚ) (pg : Vec → ℚ → ℚ → Vec) (vl : ℚ → ℚ → ℚ) : HydroParticles :=
  { positions := [(0, 0)]
    velocities := [(0, 0)]
    accellerations := [(0, 0)]
    boundary_particles := []
    smoothing_length_sq := 1 / 100
    particle_density := 2500
    fluid_density := 100
    fluid_speedofsound_sq := 1
    fluid_viscosity := 1
    density_kernel := dk
    pressure_kernel_gradient := pg
    viscosity_kernel_laplacian := vl
    boundary_force_factor := 10
    densities := [0] }

namespace HydroParticles

/-- `update_densities` only writes the density array. -/
theorem update_densities_positions (fsqrt : ℚ → ℚ) (s : HydroParticles) :
    (update_densities fsqrt s).positions = s.positions := rfl

/-- `update_densities` only writes the density array. -/
theorem update_densities_velocities (fsqrt : ℚ → ℚ) (s : HydroParticles) :
    (update_densities fsqrt s).velocities = s.velocities := rfl

/-- `update_accellerations` only writes the acceleration array. -/
theorem update_accellerations_positions (fsqrt : ℚ → ℚ) (s : HydroParticles) :
    (update_accellerations fsqrt s).positions = s.positions := rfl

/-- `update_accellerations` only writes the acceleration array. -/
theorem update_accellerations_velocities (fsqrt : ℚ → ℚ) (s : HydroParticles) :
    (update_accellerations fsqrt s).velocities = s.velocities := rfl

/-- With a single particle and no boundary, the density pass stores exactly
one self contribution (the `i + 1`-based pair loop is empty). -/
theorem update_densities_single (fsqrt : ℚ → ℚ) (s : HydroParticles)
    (hp : s.positions.length = 1) (hd : s.densities.length = 1)
    (hb : s.boundary_particles = []) :
    (update_densities fsqrt s).densities = [s.density_kernel 0 0 * s.particle_mass] := by
  simp [update_densities, hp, hd, hb, show List.range 1 = [0] from rfl]

/-- With a single particle and no boundary, the force pass leaves exactly the
gravity reset value. -/
theorem update_accellerations_single (fsqrt : ℚ → ℚ) (s : HydroParticles)
    (hp : s.positions.length = 1) (hd : s.densities.length = 1)
    (ha : s.accellerations.length = 1) (hb : s.boundary_particles = []) :
    (update_accellerations fsqrt s).accellerations = [gravityHP] := by
  simp [update_accellerations, accel_outer_step, hp, hd, ha, hb,
    show List.range 1 = [0] from rfl]

end HydroParticles

/-- C4 (amended): one `physics_step` with `dt = 0.1` on a single fluid
particle resting at the origin with zero stored acceleration and no boundary
particles gives velocity exactly `(0, -0.004905)` — only the second half-kick
acts, with the gravity that the code scales by `0.01` — and position exactly
`(0, 0)`, because the drift half uses the zero stored acceleration.  This
holds for every square-root function and every choice of kernels (with one
particle both pair loops are empty). -/
theorem physics_step_single_particle (fsqrt : ℚ → ℚ) (dk : ℚ → ℚ → ℚ)
    (pg : Vec → ℚ → ℚ → Vec) (vl : ℚ → ℚ → ℚ) :
    (HydroParticles.physics_step fsqrt (hpSingle dk pg vl) (1/10)).velocities
        = [(0, -981/200000)] ∧
      (HydroParticles.physics_step fsqrt (hpSingle dk pg vl) (1/10)).positions
        = [(0, 0)] := by
  unfold HydroParticles.physics_step
  have h1p : (List.zipWith
      (fun (pv : Vec × Vec) a => pv.1 + (1/10 : ℚ) • pv.2 + ((0.5 : ℚ) * (1/10) * (1/10)) • a)
      ((hpSingle dk pg vl).positions.zip (hpSingle dk pg vl).velocities)
      (hpSingle dk pg vl).accellerations) = [((0 : ℚ), (0 : ℚ))] := by
    simp [hpSingle, Prod.ext_iff, smul_zero]
  have h1v : (List.zipWith (fun v a => v + ((0.5 : ℚ) * (1/10)) • a)
      (hpSingle dk pg vl).velocities (hpSingle dk pg vl).accellerations)
      = [((0 : ℚ), (0 : ℚ))] := by
    simp [hpSingle, Prod.ext_iff, smul_zero]
  rw [h1p, h1v]
  set s1 : HydroParticles := { hpSingle dk pg vl with
    positions := [(0, 0)], velocities := [(0, 0)] } with hs1
  have hacc : (HydroParticles.update_accellerations fsqrt
      (HydroParticles.update_densities fsqrt s1)).accellerations
      = [HydroParticles.gravityHP] := by
    apply HydroParticles.update_accellerations_single
    · rw [HydroParticles.update_densities_positions]; rfl
    · rw [HydroParticles.update_densities_single] <;> simp [hs1, hpSingle]
    · rw [show (HydroParticles.update_densities fsqrt s1).accellerations
          = s1.accellerations from rfl]; rfl
    · rfl
  have hvel : (HydroParticles.update_accellerations fsqrt
      (HydroParticles.update_densities fsqrt s1)).velocities = [((0 : ℚ), (0 : ℚ))] := by
    rw [HydroParticles.update_accellerations_velocities,
      HydroParticles.update_densities_velocities]
  have hpos : (HydroParticles.update_accellerations fsqrt
      (HydroParticles.update_densities fsqrt s1)).positions = [((0 : ℚ), (0 : ℚ))] := by
    rw [HydroParticles.update_accellerations_positions,
      HydroParticles.update_densities_positions]
  constructor
  · show (List.zipWith (fun v a => v + ((0.5 : ℚ) * (1/10)) • a) _ _) = _
    rw [hvel, hacc]
    simp [HydroParticles.gravityHP, Prod.ext_iff]
    norm_num
  · exact hpos

/-- C4 (counterexample): at the concrete scenario of the claim — one resting
particle, zero stored acceleration, `dt = 0.1` — `physics_step` (with any
concrete kernels; they cannot act on a lone particle) produces velocity
`(0, -0.004905)` and position `(0, 0)`, nowhere near the claimed
`≈ (0, -0.981)` and `≈ (0, -0.04905)`: the velocity misses by more than `0.5`
and the position by more than `0.04`. -/
theorem physics_step_single_particle_cex :
    ((HydroParticles.physics_step ratSqrt
        (hpSingle (fun _ _ => 0) (fun _ _ _ => (0, 0)) (fun _ _ => 0)) (1/10)).velocities
      = [(0, -981/200000)] ∧
    (HydroParticles.physics_step ratSqrt
        (hpSingle (fun _ _ => 0) (fun _ _ _ => (0, 0)) (fun _ _ => 0)) (1/10)).positions
      = [(0, 0)]) ∧
    |(-981/200000 : ℚ) - (-981/1000)| > 1/2 ∧
    |(0 : ℚ) - (-4905/100000)| > 1/25 := by
  refine ⟨?_, by norm_num [abs], by norm_num [abs]⟩
  unfold HydroParticles.physics_step
  have h1p : (List.zipWith
      (fun (pv : Vec × Vec) a => pv.1 + (1/10 : ℚ) • pv.2 + ((0.5 : ℚ) * (1/10) * (1/10)) • a)
      ((hpSingle (fun _ _ => 0) (fun _ _ _ => ((0 : ℚ), (0 : ℚ))) (fun _ _ => 0)).positions.zip
        (hpSingle (fun _ _ => 0) (fun _ _ _ => (0, 0)) (fun _ _ => 0)).velocities)
      (hpSingle (fun _ _ => 0) (fun _ _ _ => (0, 0)) (fun _ _ => 0)).accellerations)
      = [((0 : ℚ), (0 : ℚ))] := by
    simp [hpSingle, Prod.ext_iff, smul_zero]
  have h1v : (List.zipWith (fun v a => v + ((0.5 : ℚ) * (1/10)) • a)
      (hpSingle (fun _ _ => 0) (fun _ _ _ => ((0 : ℚ), (0 : ℚ))) (fun _ _ => 0)).velocities
      (hpSingle (fun _ _ => 0) (fun _ _ _ => (0, 0)) (fun _ _ => 0)).accellerations)
      = [((0 : ℚ), (0 : ℚ))] := by
    simp [hpSingle, Prod.ext_iff, smul_zero]
  rw [h1p, h1v]
  set s1 : HydroParticles := { hpSingle (fun _ _ => 0) (fun _ _ _ => (0, 0)) (fun _ _ => 0) with
    positions := [(0, 0)], velocities := [(0, 0)] } with hs1
  have hacc : (HydroParticles.update_accellerations ratSqrt
      (HydroParticles.update_densities ratSqrt s1)).accellerations
      = [HydroParticles.gravityHP] := by
    apply HydroParticles.update_accellerations_single
    · rw [HydroParticles.update_densities_positions]; rfl
    · rw [HydroParticles.update_densities_single] <;> simp [hs1, hpSingle]
    · rw [show (HydroParticles.update_densities ratSqrt s1).accellerations
          = s1.accellerations from rfl]; rfl
    · rfl
  have hvel : (HydroParticles.update_accellerations ratSqrt
      (HydroParticles.update_densities ratSqrt s1)).velocities = [((0 : ℚ), (0 : ℚ))] := by
    rw [HydroParticles.update_accellerations_velocities,
      HydroParticles.update_densities_velocities]
  have hpos : (HydroParticles.update_accellerations ratSqrt
      (HydroParticles.update_densities ratSqrt s1)).positions = [((0 : ℚ), (0 : ℚ))] := by
    rw [HydroParticles.update_accellerations_positions,
      HydroParticles.update_densities_positions]
  constructor
  · show (List.zipWith (fun v a => v + ((0.5 : ℚ) * (1/10)) • a) _ _) = _
    rw [hvel, hacc]
    simp [HydroParticles.gravityHP, Prod.ext_iff]
    norm_num
  · exact hpos

end Sph2d

namespace Sph2d

/-- Evaluation rule for `Nat.sqrt` on concrete perfect-square bounds. -/
theorem natSqrt_eval (a n : ℕ) (h1 : a * a ≤ n) (h2 : n < (a + 1) * (a + 1)) :
    Nat.sqrt n = a := (Nat.eq_sqrt.mpr ⟨h1, h2⟩).symm

/-- The boundary-line push loop produces the arithmetic progression
`pos, pos + step, pos + 2 step, …` (the points are evenly spaced). -/
theorem lineAux_eq (n : ℕ) : ∀ pos step : Vec,
    HydroParticles.lineAux pos step n
      = (List.range n).map (fun (k : ℕ) => pos + (k : ℚ) • step) := by
  induction n with
  | zero => intro pos step; rfl
  | succ n ih =>
    intro pos step
    rw [List.range_succ_eq_map]
    show pos :: HydroParticles.lineAux (pos + step) step n = _
    rw [ih (pos + step) step, List.map_cons, List.map_map]
    refine congrArg₂ List.cons (by simp) ?_
    refine List.map_congr_left (fun k _ => ?_)
    simp only [Function.comp_apply, Nat.cast_succ, add_smul, one_smul]
    abel

/-- An empty world with rest particle density 100 (the kernels are irrelevant
to the particle-source operations). -/
def hp100 : HydroParticles :=
  { positions := []
    velocities := []
    accellerations := []
    boundary_particles := []
    smoothing_length_sq := 1/100
    particle_density := 100
    fluid_density := 100
    fluid_speedofsound_sq := 1
    fluid_viscosity := 0
    density_kernel := fun _ _ => 0
    pressure_kernel_gradient := fun _ _ _ => (0, 0)
    viscosity_kernel_laplacian := fun _ _ => 0
    boundary_force_factor := 10
    densities := [] }

/-- C8: `add_boundary_line` appends exactly
`max(1, floor(distance * sqrt(particle_density)))` points forming the
arithmetic progression `start + k * (stop - start) / n` (evenly spaced), for
every state and segment; and from `(0,0)` to `(1,0)` with rest density `100`
(where the float square roots are exact: `sqrt 1 = 1`, `sqrt 100 = 10`) it
appends exactly the 10 evenly spaced points `(k/10, 0)`, `k = 0, …, 9`. -/
theorem add_boundary_line_spec :
    (∀ (fsqrt : ℚ → ℚ) (s : HydroParticles) (start stop : Vec),
      (HydroParticles.add_boundary_line fsqrt s start stop).boundary_particles
        = s.boundary_particles ++
          (List.range (max 1 ⌊fsqrt (distSq start stop) * fsqrt s.particle_density⌋₊)).map
            (fun (k : ℕ) => start + (k : ℚ) •
              (((max 1 ⌊fsqrt (distSq start stop) * fsqrt s.particle_density⌋₊ : ℕ) : ℚ))⁻¹ •
                (stop - start))) ∧
    (∀ (fsqrt : ℚ → ℚ) (s : HydroParticles),
      fsqrt 1 = 1 → fsqrt 100 = 10 → s.particle_density = 100 →
      (HydroParticles.add_boundary_line fsqrt s ((0 : ℚ), (0 : ℚ)) (1, 0)).boundary_particles
        = s.boundary_particles ++ (List.range 10).map (fun (k : ℕ) => ((k : ℚ) / 10, 0))) := by
  constructor
  · intro fsqrt s start stop
    rw [HydroParticles.add_boundary_line]
    simp only [HydroParticles.num_particles_per_meter, lineAux_eq]
  · intro fsqrt s h1 h100 hd
    rw [HydroParticles.add_boundary_line]
    simp only [HydroParticles.num_particles_per_meter, hd, h100, lineAux_eq]
    have hds : distSq ((0 : ℚ), (0 : ℚ)) (1, 0) = 1 := by
      simp [distSq, normSq]
    rw [hds, h1]
    norm_num
    intro a ha
    ring

/-- Witness for C8: the concrete boundary line of the claim, with the exact
square-root values of the perfect squares 1 and 100 discharged by `ratSqrt`. -/
theorem add_boundary_line_spec_witness :
    ratSqrt 1 = 1 ∧ ratSqrt 100 = 10 ∧ hp100.particle_density = 100 ∧
      (HydroParticles.add_boundary_line ratSqrt hp100 ((0 : ℚ), (0 : ℚ)) (1, 0)).boundary_particles
        = hp100.boundary_particles ++ (List.range 10).map (fun (k : ℕ) => ((k : ℚ) / 10, 0)) := by
  have h1 : ratSqrt 1 = 1 := by simp [ratSqrt]
  have h100 : ratSqrt 100 = 10 := by
    simp [ratSqrt]
    rw [natSqrt_eval 10 100 (by norm_num) (by norm_num)]
    norm_num
  exact ⟨h1, h100, rfl, add_boundary_line_spec.2 ratSqrt hp100 h1 h100 rfl⟩

/-- C7: `add_fluid_rect` appends exactly
`max(1, floor(w * sqrt(density))) * max(1, floor(h * sqrt(density)))` new
particles for every rectangle and every jitter amount, each appended with zero
initial velocity, density and acceleration; and with jitter 0 every appended
particle lies exactly on its lattice point
`(x + step * i, y + step * j)` with `step = min(w / nx, h / ny)`. -/
theorem add_fluid_rect_spec (fsqrt : ℚ → ℚ) (s : HydroParticles) (r : Rect) (jitter : ℚ)
    (rnd : ℕ → Vec) :
    ((HydroParticles.add_fluid_rect fsqrt s r jitter rnd).positions.length
        = s.positions.length +
          (max 1 ⌊r.w * fsqrt s.particle_density⌋₊) * (max 1 ⌊r.h * fsqrt s.particle_density⌋₊) ∧
      (HydroParticles.add_fluid_rect fsqrt s r jitter rnd).velocities
        = s.velocities ++ List.replicate
            ((max 1 ⌊r.w * fsqrt s.particle_density⌋₊) * (max 1 ⌊r.h * fsqrt s.particle_density⌋₊)) 0 ∧
      (HydroParticles.add_fluid_rect fsqrt s r jitter rnd).densities
        = s.densities ++ List.replicate
            ((max 1 ⌊r.w * fsqrt s.particle_density⌋₊) * (max 1 ⌊r.h * fsqrt s.particle_density⌋₊)) 0 ∧
      (HydroParticles.add_fluid_rect fsqrt s r jitter rnd).accellerations
        = s.accellerations ++ List.replicate
            ((max 1 ⌊r.w * fsqrt s.particle_density⌋₊) * (max 1 ⌊r.h * fsqrt s.particle_density⌋₊)) 0) ∧
    (HydroParticles.add_fluid_rect fsqrt s r 0 rnd).positions
      = s.positions ++ (List.range (max 1 ⌊r.h * fsqrt s.particle_density⌋₊)).flatMap
          (fun (y : ℕ) => (List.range (max 1 ⌊r.w * fsqrt s.particle_density⌋₊)).map
            (fun (x : ℕ) =>
              (r.x + min (r.w / (max 1 ⌊r.w * fsqrt s.particle_density⌋₊ : ℕ))
                  (r.h / (max 1 ⌊r.h * fsqrt s.particle_density⌋₊ : ℕ)) * (x : ℚ),
                r.y + min (r.w / (max 1 ⌊r.w * fsqrt s.particle_density⌋₊ : ℕ))
                  (r.h / (max 1 ⌊r.h * fsqrt s.particle_density⌋₊ : ℕ)) * (y : ℚ)))) := by
  refine ⟨⟨?_, rfl, rfl, rfl⟩, ?_⟩
  · simp [HydroParticles.add_fluid_rect, HydroParticles.num_particles_per_meter,
      List.length_flatMap, Function.comp_def, Nat.mul_comm]
  · simp only [HydroParticles.add_fluid_rect, HydroParticles.num_particles_per_meter,
      mul_zero, zero_smul, add_zero, zero_add]
    refine congrArg (s.positions ++ ·) ?_
    refine congrArg _ (funext fun y => ?_)
    refine List.map_congr_left (fun x _ => ?_)
    simp [Prod.mk_add_mk]

end Sph2d

namespace Sph2d
namespace HydroParticles

/-- Adding `v` into one slot of the acceleration array adds `v` to its sum. -/
theorem sum_set_add (l : List Vec) (i : ℕ) (hi : i < l.length) (v : Vec) :
    (l.set i (l.getD i 0 + v)).sum = l.sum + v := by
  rw [List.sum_set']
  simp only [hi, dif_pos, List.getD_eq_getElem l 0 hi]
  abel

/-- Subtracting `v` from one slot of the acceleration array subtracts `v` from
its sum. -/
theorem sum_set_sub (l : List Vec) (i : ℕ) (hi : i < l.length) (v : Vec) :
    (l.set i (l.getD i 0 - v)).sum = l.sum - v := by
  rw [List.sum_set']
  simp only [hi, dif_pos, List.getD_eq_getElem l 0 hi]
  abel

/-- One pair update does not change the length of the acceleration array. -/
theorem pair_step_length (fsqrt : ℚ → ℚ) (s : HydroParticles) (mass : ℚ) (i j : ℕ)
    (acc : List Vec) : (pair_step fsqrt s mass i acc j).length = acc.length := by
  rw [pair_step]
  split <;> simp

/-- One boundary update does not change the length of the acceleration
array. -/
theorem boundary_step_length (fsqrt : ℚ → ℚ) (s : HydroParticles) (i : ℕ)
    (acc : List Vec) (rj : Vec) : (boundary_step fsqrt s i acc rj).length = acc.length := by
  rw [boundary_step]
  split <;> simp

/-- One symmetric pair update leaves the total acceleration sum unchanged:
the contribution is added at `i` and subtracted at `j`. -/
theorem pair_step_sum (fsqrt : ℚ → ℚ) (s : HydroParticles) (mass : ℚ) (i j : ℕ)
    (acc : List Vec) (hi : i < acc.length) (hj : j < acc.length) (hij : i ≠ j) :
    (pair_step fsqrt s mass i acc j).sum = acc.sum := by
  rw [pair_step]
  split
  · rfl
  · have hgd : acc.getD j 0
        = (acc.set i (acc.getD i 0 + pair_ftotal fsqrt s mass i j)).getD j 0 := by
      have hj' : j < (acc.set i (acc.getD i 0 + pair_ftotal fsqrt s mass i j)).length := by
        simpa using hj
      rw [List.getD_eq_getElem _ 0 hj, List.getD_eq_getElem _ 0 hj',
        List.getElem_set_ne hij]
    rw [hgd, sum_set_sub _ j (by simpa using hj) _, sum_set_add _ i hi _]
    abel

/-- The inner pair loop for particle `i` (over any list of partner indices
inside the array and different from `i`) preserves the sum and the length of
the acceleration array. -/
theorem pair_fold_invariant (fsqrt : ℚ → ℚ) (s : HydroParticles) (mass : ℚ) (i : ℕ) :
    ∀ (js : List ℕ) (acc : List Vec),
      (∀ j ∈ js, j < acc.length ∧ i ≠ j) → i < acc.length →
      (js.foldl (pair_step fsqrt s mass i) acc).sum = acc.sum ∧
        (js.foldl (pair_step fsqrt s mass i) acc).length = acc.length := by
  intro js
  induction js with
  | nil => intro acc _ _; exact ⟨rfl, rfl⟩
  | cons j js ih =>
    intro acc hjs hi
    have hj := hjs j (List.mem_cons_self j js)
    have hlen := pair_step_length fsqrt s mass i j acc
    have hsum := pair_step_sum fsqrt s mass i j acc hi hj.1 hj.2
    have := ih (pair_step fsqrt s mass i acc j)
      (fun j' hj' => by rw [hlen]; exact hjs j' (List.mem_cons_of_mem j hj'))
      (by rw [hlen]; exact hi)
    rw [List.foldl_cons]
    exact ⟨this.1.trans hsum, this.2.trans hlen⟩

/-- A member of `(range n).drop k` lies in `[k, n)`. -/
theorem mem_drop_range_bounds (n k j : ℕ) (h : j ∈ (List.range n).drop k) :
    k ≤ j ∧ j < n := by
  refine ⟨?_, List.mem_range.mp (List.mem_of_mem_drop h)⟩
  obtain ⟨m, hm, hj⟩ := List.mem_iff_getElem.mp h
  rw [List.getElem_drop] at hj
  rw [List.getElem_range] at hj
  omega

/-- With no boundary particles, the whole outer loop of
`update_accellerations` preserves the sum and the length of the acceleration
array: every pair contribution cancels. -/
theorem outer_fold_invariant (fsqrt : ℚ → ℚ) (s : HydroParticles) (mass : ℚ) (n : ℕ)
    (hb : s.boundary_particles = []) :
    ∀ (is : List ℕ) (acc : List Vec), n ≤ acc.length → (∀ i ∈ is, i < n) →
      (is.foldl (accel_outer_step fsqrt s mass n) acc).sum = acc.sum ∧
        (is.foldl (accel_outer_step fsqrt s mass n) acc).length = acc.length := by
  intro is
  induction is with
  | nil => intro acc _ _; exact ⟨rfl, rfl⟩
  | cons i is ih =>
    intro acc hn his
    have hi : i < n := his i (List.mem_cons_self i is)
    have hjs : ∀ j ∈ (List.range n).drop (i + 1), j < acc.length ∧ i ≠ j := by
      intro j hj
      have := mem_drop_range_bounds n (i + 1) j hj
      exact ⟨lt_of_lt_of_le this.2 hn, by omega⟩
    have hpair := pair_fold_invariant fsqrt s mass i ((List.range n).drop (i + 1)) acc hjs
      (lt_of_lt_of_le hi hn)
    have hstep : accel_outer_step fsqrt s mass n acc i
        = ((List.range n).drop (i + 1)).foldl (pair_step fsqrt s mass i) acc := by
      rw [accel_outer_step, hb]
      rfl
    rw [List.foldl_cons]
    have := ih (accel_outer_step fsqrt s mass n acc i)
      (by rw [hstep, hpair.2]; exact hn)
      (fun i' hi' => his i' (List.mem_cons_of_mem i hi'))
    refine ⟨this.1.trans ?_, this.2.trans ?_⟩
    · rw [hstep]; exact hpair.1
    · rw [hstep]; exact hpair.2

end HydroParticles

/-- C3: for every particle configuration (with matching array lengths and
non-zero densities) and no boundary particles, the force pass changes the
total acceleration sum by nothing beyond the gravity reset: the sum after
`update_accellerations` is exactly `N • gravity`, i.e. the pressure-plus-
viscosity pair contributions sum to exactly zero, because each pair's total
is added to slot `i` and subtracted from slot `j`. -/
theorem update_accellerations_momentum (fsqrt : ℚ → ℚ) (s : HydroParticles)
    (hb : s.boundary_particles = [])
    (hd : s.densities.length = s.positions.length)
    (ha : s.accellerations.length = s.positions.length)
    (hrho : ∀ d ∈ s.densities, d ≠ 0) :
    (HydroParticles.update_accellerations fsqrt s).accellerations.sum
      = s.positions.length • HydroParticles.gravityHP := by
  show ((List.range (min s.positions.length s.densities.length)).foldl
      (HydroParticles.accel_outer_step fsqrt s s.particle_mass
        (min s.positions.length s.densities.length))
      (List.replicate s.accellerations.length HydroParticles.gravityHP)).sum = _
  have hmin : min s.positions.length s.densities.length = s.positions.length := by
    rw [hd]; exact Nat.min_self _
  have h := HydroParticles.outer_fold_invariant fsqrt s s.particle_mass
    (min s.positions.length s.densities.length) hb
    (List.range (min s.positions.length s.densities.length))
    (List.replicate s.accellerations.length HydroParticles.gravityHP)
    (by rw [List.length_replicate, ha, hmin])
    (fun i hi => List.mem_range.mp hi)
  rw [h.1, List.sum_replicate, ha]

/-- A two-particle in-range configuration with unit densities and nontrivial
kernels, used to witness the momentum theorem. -/
def hp2 : HydroParticles :=
  { positions := [(0, 0), (1/100, 0)]
    velocities := [(0, 0), (1, 0)]
    accellerations := [(0, 0), (0, 0)]
    boundary_particles := []
    smoothing_length_sq := 1/100
    particle_density := 100
    fluid_density := 100
    fluid_speedofsound_sq := 1
    fluid_viscosity := 1
    density_kernel := fun _ _ => 1
    pressure_kernel_gradient := fun v _ _ => v
    viscosity_kernel_laplacian := fun _ _ => 1
    boundary_force_factor := 10
    densities := [1, 1] }

/-- Witness for C3: the momentum theorem applied to a concrete two-particle
in-range configuration. -/
theorem update_accellerations_momentum_witness :
    (HydroParticles.update_accellerations ratSqrt hp2).accellerations.sum
      = hp2.positions.length • HydroParticles.gravityHP :=
  update_accellerations_momentum ratSqrt hp2 rfl rfl rfl
    (by intro d hd; fin_cases hd <;> norm_num)

end Sph2d

namespace Sph2d
namespace NeighborhoodSearch

/-- The linear scan of `find_next_cell` over `[lo, hi)` (with fuel covering
the scan) returns the first index at or after `lo` whose cell code is at
least `c` (given everything before `lo` is below `c` and `hi` is either the
length or a position with code above `c`), and reads only in-bounds
indices. -/
theorem linearScanAux_spec (cells : List Cell) (c : ℕ)
    (hsorted : List.Pairwise (fun a b => a.cidx < b.cidx) cells) (hi : ℕ)
    (hhile : hi ≤ cells.length)
    (hhi : hi = cells.length ∨ ∃ hh : hi < cells.length, c < (cells[hi]).cidx) :
    ∀ (fuel lo : ℕ), hi - lo ≤ fuel →
      (∀ k (hk : k < cells.length), k < lo → (cells[k]).cidx < c) →
      (linearScanAux cells c hi fuel lo).1 ≤ cells.length ∧
        (∀ k (hk : k < cells.length), k < (linearScanAux cells c hi fuel lo).1 →
          (cells[k]).cidx < c) ∧
        (∀ hr : (linearScanAux cells c hi fuel lo).1 < cells.length,
          c ≤ (cells[(linearScanAux cells c hi fuel lo).1]).cidx) ∧
        (∀ a ∈ (linearScanAux cells c hi fuel lo).2, a < cells.length) := by
  intro fuel
  induction fuel with
  | zero =>
    intro lo hn hlo
    simp only [linearScanAux]
    refine ⟨hhile, ?_, ?_, ?_⟩
    · intro k hk hkhi
      exact hlo k hk (by omega)
    · intro hr
      rcases hhi with h | ⟨hh, hc⟩
      · omega
      · exact hc.le
    · intro a ha
      simp at ha
  | succ fuel ih =>
    intro lo hn hlo
    rw [linearScanAux]
    split
    case isTrue hlt =>
      have hlolen : lo < cells.length := lt_of_lt_of_le hlt hhile
      rw [List.getD_eq_getElem cells _ hlolen]
      split
      case isTrue hge =>
        refine ⟨le_of_lt hlolen, ?_, ?_, ?_⟩
        · exact fun k hk hklo => hlo k hk hklo
        · intro _; exact hge
        · intro a ha
          simp only [List.mem_singleton] at ha
          exact ha ▸ hlolen
      case isFalse hnge =>
        push_neg at hnge
        have hrec := ih (lo + 1) (by omega)
          (fun k hk hklo => by
            rcases Nat.lt_succ_iff_lt_or_eq.mp hklo with h | h
            · exact hlo k hk h
            · exact h ▸ hnge)
        refine ⟨hrec.1, hrec.2.1, hrec.2.2.1, ?_⟩
        intro a ha
        simp only [List.mem_cons] at ha
        rcases ha with h | h
        · exact h ▸ hlolen
        · exact hrec.2.2.2 a h
    case isFalse hnlt =>
      push_neg at hnlt
      refine ⟨hhile.trans le_rfl, ?_, ?_, ?_⟩
      · intro k hk hkhi
        exact hlo k hk (lt_of_lt_of_le hkhi hnlt)
      · intro hr
        rcases hhi with h | ⟨hh, hc⟩
        · omega
        · exact hc.le
      · intro a ha
        simp at ha

/-- The halving loop of `find_next_cell` maintains `range ≤ hi - lo`, all
codes before `lo` below `c`, and `hi` either the length or a position with
code above `c`; it returns the first index with code at least `c` and reads
only in-bounds indices. -/
theorem findNextCellAux_spec (cells : List Cell) (c : ℕ)
    (hsorted : List.Pairwise (fun a b => a.cidx < b.cidx) cells) :
    ∀ (fuel lo hi range : ℕ), range ≤ hi - lo → hi ≤ cells.length →
      (hi = cells.length ∨ ∃ hh : hi < cells.length, c < (cells[hi]).cidx) →
      (∀ k (hk : k < cells.length), k < lo → (cells[k]).cidx < c) →
      (findNextCellAux cells c fuel lo hi range).1 ≤ cells.length ∧
        (∀ k (hk : k < cells.length), k < (findNextCellAux cells c fuel lo hi range).1 →
          (cells[k]).cidx < c) ∧
        (∀ hr : (findNextCellAux cells c fuel lo hi range).1 < cells.length,
          c ≤ (cells[(findNextCellAux cells c fuel lo hi range).1]).cidx) ∧
        (∀ a ∈ (findNextCellAux cells c fuel lo hi range).2, a < cells.length) := by
  intro fuel
  induction fuel with
  | zero =>
    intro lo hi range hrange hhile hhi hlo
    exact linearScanAux_spec cells c hsorted hi hhile hhi (hi - lo) lo le_rfl hlo
  | succ fuel ih =>
    intro lo hi range hrange hhile hhi hlo
    rw [findNextCellAux]
    dsimp only
    split
    case isTrue h16 =>
      have hmidlt : lo + range / 2 < hi := by omega
      have hmidlen : lo + range / 2 < cells.length := lt_of_lt_of_le hmidlt hhile
      rw [List.getD_eq_getElem cells _ hmidlen]
      have hpw := List.pairwise_iff_getElem.mp hsorted
      split
      case isTrue hgt =>
        have hrec := ih lo (lo + range / 2) (range / 2) (by omega)
          hmidlen.le (Or.inr ⟨hmidlen, hgt⟩) hlo
        refine ⟨hrec.1, hrec.2.1, hrec.2.2.1, ?_⟩
        intro a ha
        simp only [List.mem_cons] at ha
        rcases ha with h | h
        · exact h ▸ hmidlen
        · exact hrec.2.2.2 a h
      case isFalse hngt =>
        split
        case isTrue hltc =>
          have hrec := ih (lo + range / 2) hi (range / 2) (by omega) hhile hhi
            (fun k hk hkmid => by
              rcases Nat.lt_or_ge k (lo + range / 2) with h | h
              · calc (cells[k]).cidx < (cells[lo + range / 2]).cidx :=
                    hpw k (lo + range / 2) hk hmidlen h
                  _ < c := hltc
              · omega)
          refine ⟨hrec.1, hrec.2.1, hrec.2.2.1, ?_⟩
          intro a ha
          simp only [List.mem_cons] at ha
          rcases ha with h | h
          · exact h ▸ hmidlen
          · exact hrec.2.2.2 a h
        case isFalse hnltc =>
          have heq : (cells[lo + range / 2]).cidx = c := by omega
          refine ⟨hmidlen.le, ?_, ?_, ?_⟩
          · intro k hk hkmid
            calc (cells[k]).cidx < (cells[lo + range / 2]).cidx :=
                hpw k (lo + range / 2) hk hmidlen hkmid
              _ = c := heq
          · intro _; exact heq.ge
          · intro a ha
            simp only [List.mem_singleton] at ha
            exact ha ▸ hmidlen
    case isFalse hn16 =>
      exact linearScanAux_spec cells c hsorted hi hhile hhi (hi - lo) lo le_rfl hlo

/-- C10: on a cell array with strictly increasing cell codes (as the rebuild
produces), `find_next_cell(cells, c)` returns the smallest array index whose
cell code is at least `c` — every smaller index has a smaller code, and the
returned index (when inside the array) has code at least `c`, so when no such
cell exists the result is `cells.len()` — and every `get_unchecked` read it
performs is within bounds. -/
theorem find_next_cell_correct (cells : List Cell) (c : ℕ)
    (hsorted : List.Pairwise (fun a b => a.cidx < b.cidx) cells) :
    find_next_cell cells c ≤ cells.length ∧
      (∀ k (hk : k < cells.length), k < find_next_cell cells c → (cells[k]).cidx < c) ∧
      (∀ hr : find_next_cell cells c < cells.length,
        c ≤ (cells[find_next_cell cells c]).cidx) ∧
      (∀ a ∈ find_next_cell_reads cells c, a < cells.length) :=
  findNextCellAux_spec cells c hsorted cells.length 0 cells.length cells.length (by omega)
    le_rfl (Or.inl rfl) (fun k hk h => absurd h (Nat.not_lt_zero k))

end NeighborhoodSearch
end Sph2d

namespace Sph2d

/-- A concrete strictly increasing three-cell table. -/
def cells3 : List Cell := [{ first_particle := 0, cidx := 1 },
  { first_particle := 2, cidx := 5 }, { first_particle := 4, cidx := 9 }]

/-- Witness for C10: on the concrete table, searching for code 5 lands on
array index 1 (evaluated by the kernel), and the correctness and
bounds-safety conclusions follow from the theorem. -/
theorem find_next_cell_correct_witness :
    NeighborhoodSearch.find_next_cell cells3 5 = 1 ∧
      (NeighborhoodSearch.find_next_cell cells3 5 ≤ cells3.length ∧
        (∀ k (hk : k < cells3.length),
          k < NeighborhoodSearch.find_next_cell cells3 5 → (cells3[k]).cidx < 5) ∧
        (∀ hr : NeighborhoodSearch.find_next_cell cells3 5 < cells3.length,
          5 ≤ (cells3[NeighborhoodSearch.find_next_cell cells3 5]).cidx) ∧
        (∀ a ∈ NeighborhoodSearch.find_next_cell_reads cells3 5, a < cells3.length)) :=
  ⟨by decide, NeighborhoodSearch.find_next_cell_correct cells3 5 (by decide)⟩

end Sph2d


namespace Sph2d
namespace NeighborhoodSearch

/-- Every cell the compression loop pushes records a run start: its
`first_particle` is the absolute index of a particle whose code differs from
its predecessor (or from the incoming `prev` for the first element). -/
theorem buildCellsAux_shape (l : List Particle) :
    ∀ (i prev : ℕ), List.Pairwise (fun a b => a.cidx ≤ b.cidx) l →
      ∀ cl ∈ buildCellsAux l i prev, ∃ k, ∃ hk : k < l.length,
        cl.first_particle = i + k ∧ cl.cidx = (l[k]).cidx ∧
          ((k = 0 ∧ (l[k]).cidx ≠ prev) ∨
            (1 ≤ k ∧ ∃ hk1 : k - 1 < l.length, (l[k - 1]).cidx ≠ (l[k]).cidx)) := by
  induction l with
  | nil => intro i prev _ cl hcl; simp [buildCellsAux] at hcl
  | cons p rest ih =>
    intro i prev hsorted cl hcl
    rw [buildCellsAux] at hcl
    rw [List.pairwise_cons] at hsorted
    split at hcl
    case isTrue hne =>
      rcases List.mem_cons.mp hcl with h | h
      · exact ⟨0, by simp, by simp [h], by simp [h], Or.inl ⟨rfl, by simpa using hne⟩⟩
      · obtain ⟨k, hk, hfirst, hcidx, hrun⟩ := ih (i + 1) p.cidx hsorted.2 cl h
        refine ⟨k + 1, by simpa using hk, by omega, by simpa using hcidx, ?_⟩
        rcases hrun with ⟨hk0, hne0⟩ | ⟨hk1, hk1m, hnem⟩
        · subst hk0
          refine Or.inr ⟨le_refl 1, by simp, ?_⟩
          simp only [List.getElem_cons_succ]
          simp only [Nat.add_sub_cancel, List.getElem_cons_zero]
          intro h2
          exact hne0 (by simpa using h2.symm)
        · obtain ⟨kk, rfl⟩ : ∃ kk, k = kk + 1 := ⟨k - 1, by omega⟩
          refine Or.inr ⟨by omega, by simpa using Nat.lt_succ_of_lt hk, ?_⟩
          simp only [Nat.add_sub_cancel, List.getElem_cons_succ]
          simpa using hnem
    case isFalse heq =>
      push_neg at heq
      obtain ⟨k, hk, hfirst, hcidx, hrun⟩ := ih (i + 1) prev hsorted.2 cl hcl
      refine ⟨k + 1, by simpa using hk, by omega, by simpa using hcidx, ?_⟩
      rcases hrun with ⟨hk0, hne0⟩ | ⟨hk1, hk1m, hnem⟩
      · subst hk0
        refine Or.inr ⟨le_refl 1, by simp, ?_⟩
        simp only [Nat.add_sub_cancel, List.getElem_cons_zero, List.getElem_cons_succ]
        intro h2
        exact hne0 (h2 ▸ heq)
      · obtain ⟨kk, rfl⟩ : ∃ kk, k = kk + 1 := ⟨k - 1, by omega⟩
        refine Or.inr ⟨by omega, by simpa using Nat.lt_succ_of_lt hk, ?_⟩
        simp only [Nat.add_sub_cancel, List.getElem_cons_succ]
        simpa using hnem

/-- On a sorted particle list the compression loop produces strictly
increasing cell codes, all above the incoming `prev` (unless `prev` is the
sentinel value). -/
theorem buildCellsAux_sorted (l : List Particle) :
    ∀ (i prev : ℕ), List.Pairwise (fun a b => a.cidx ≤ b.cidx) l →
      (∀ x ∈ l, x.cidx < u32Max) →
      (prev = u32Max ∨ ∀ x ∈ l, prev ≤ x.cidx) →
      List.Pairwise (fun a b : Cell => a.cidx < b.cidx) (buildCellsAux l i prev) ∧
        (∀ cl ∈ buildCellsAux l i prev, prev = u32Max ∨ prev < cl.cidx) := by
  induction l with
  | nil => intro i prev _ _ _; simp [buildCellsAux]
  | cons p rest ih =>
    intro i prev hsorted hlt hprev
    rw [List.pairwise_cons] at hsorted
    rw [buildCellsAux]
    split
    case isTrue hne =>
      have hih := ih (i + 1) p.cidx hsorted.2 (fun x hx => hlt x (List.mem_cons_of_mem p hx))
        (Or.inr hsorted.1)
      have hplt : p.cidx < u32Max := hlt p (List.mem_cons_self p rest)
      have htailgt : ∀ cl ∈ buildCellsAux rest (i + 1) p.cidx, p.cidx < cl.cidx := by
        intro cl hcl
        rcases hih.2 cl hcl with h | h
        · omega
        · exact h
      constructor
      · rw [List.pairwise_cons]
        exact ⟨htailgt, hih.1⟩
      · intro cl hcl
        rcases List.mem_cons.mp hcl with h | h
        · rcases hprev with h2 | h2
          · exact Or.inl h2
          · refine Or.inr ?_
            rw [h]
            exact lt_of_le_of_ne (h2 p (List.mem_cons_self p rest)) (by simpa [eq_comm] using hne)
        · rcases hprev with h2 | h2
          · exact Or.inl h2
          · exact Or.inr (lt_of_le_of_lt (h2 p (List.mem_cons_self p rest)) (htailgt cl h))
    case isFalse heq =>
      push_neg at heq
      have hih := ih (i + 1) prev hsorted.2 (fun x hx => hlt x (List.mem_cons_of_mem p hx))
        (Or.inr (fun x hx => heq ▸ hsorted.1 x hx))
      exact hih

/-- Every particle's code is either the incoming `prev` or appears among the
pushed cells: no non-empty cell is skipped. -/
theorem buildCellsAux_coverage (l : List Particle) :
    ∀ (i prev : ℕ), List.Pairwise (fun a b => a.cidx ≤ b.cidx) l →
      ∀ k, ∀ hk : k < l.length,
        (l[k]).cidx = prev ∨ ∃ cl ∈ buildCellsAux l i prev, cl.cidx = (l[k]).cidx := by
  induction l with
  | nil => intro i prev _ k hk; simp at hk
  | cons p rest ih =>
    intro i prev hsorted k hk
    rw [List.pairwise_cons] at hsorted
    rw [buildCellsAux]
    split
    case isTrue hne =>
      match k with
      | 0 =>
        refine Or.inr ⟨{ first_particle := i, cidx := p.cidx }, List.mem_cons_self _ _, by simp⟩
      | k + 1 =>
        rcases ih (i + 1) p.cidx hsorted.2 k (by simpa using hk) with h | ⟨cl, hcl, hceq⟩
        · refine Or.inr ⟨{ first_particle := i, cidx := p.cidx }, List.mem_cons_self _ _, ?_⟩
          simpa using h.symm
        · exact Or.inr ⟨cl, List.mem_cons_of_mem _ hcl, by simpa using hceq⟩
    case isFalse heq =>
      push_neg at heq
      match k with
      | 0 => exact Or.inl (by simpa using heq)
      | k + 1 =>
        rcases ih (i + 1) prev hsorted.2 k (by simpa using hk) with h | ⟨cl, hcl, hceq⟩
        · exact Or.inl (by simpa using h)
        · exact Or.inr ⟨cl, hcl, by simpa using hceq⟩

end NeighborhoodSearch

instance : IsTotal Particle (fun a b => a.cidx ≤ b.cidx) := ⟨fun a b => Nat.le_total _ _⟩

instance : IsTrans Particle (fun a b => a.cidx ≤ b.cidx) := ⟨fun _ _ _ => Nat.le_trans⟩

namespace NeighborhoodSearch

/-- The rebuilt particle array is sorted by cell code. -/
theorem sortedParticles_sorted (ns : NeighborhoodSearch) (positions : List Vec) :
    List.Pairwise (fun a b : Particle => a.cidx ≤ b.cidx) (sortedParticles ns positions) :=
  List.sorted_insertionSort _ _

/-- The rebuilt particle array has one entry per position. -/
theorem sortedParticles_length (ns : NeighborhoodSearch) (positions : List Vec)
    (hge : ns.particles.length ≤ positions.length) :
    (sortedParticles ns positions).length = positions.length := by
  rw [sortedParticles, (List.perm_insertionSort _ _).length_eq, List.length_map,
    extendedParticles, List.length_append, List.length_map, List.length_range']
  omega

/-- Every rebuilt entry carries an in-range particle id and the cell code of
that particle's position. -/
theorem sortedParticles_mem (ns : NeighborhoodSearch) (positions : List Vec)
    (hall : (extendedParticles ns positions).all (fun p => p.pidx < positions.length))
    (pr : Particle) (hpr : pr ∈ sortedParticles ns positions) :
    pr.pidx < positions.length ∧
      pr.cidx = position_to_cidx ns.grid_min ns.cell_size_inv
        (positions.getD pr.pidx (0, 0)) := by
  have hpru : pr ∈ (extendedParticles ns positions).map (fun p =>
      { pidx := p.pidx
        cidx := position_to_cidx ns.grid_min ns.cell_size_inv
          (positions.getD p.pidx 0) : Particle }) :=
    (List.perm_insertionSort _ _).mem_iff.mp hpr
  rw [List.mem_map] at hpru
  obtain ⟨q, hq, rfl⟩ := hpru
  have hqlt : q.pidx < positions.length := by
    have := List.all_eq_true.mp hall q hq
    simpa using this
  exact ⟨hqlt, rfl⟩

/-- When all positions map to codes below the sentinel value, so do all
rebuilt entries. -/
theorem sortedParticles_lt_max (ns : NeighborhoodSearch) (positions : List Vec)
    (hall : (extendedParticles ns positions).all (fun p => p.pidx < positions.length))
    (hcode : ∀ p ∈ positions,
      position_to_cidx ns.grid_min ns.cell_size_inv p < u32Max) :
    ∀ pr ∈ sortedParticles ns positions, pr.cidx < u32Max := by
  intro pr hpr
  obtain ⟨hpidx, hcidx⟩ := sortedParticles_mem ns positions hall pr hpr
  rw [hcidx]
  refine hcode _ ?_
  rw [List.getD_eq_getElem positions _ hpidx]
  exact List.getElem_mem _

/-- A successful `update` call means the particle count did not shrink, all
stored ids are in range, and the result is the rebuilt record. -/
theorem update_eq_some (ns : NeighborhoodSearch) (positions : List Vec)
    (s : NeighborhoodSearch) (hup : update ns positions = some s) :
    ns.particles.length ≤ positions.length ∧
      ((extendedParticles ns positions).all (fun p => p.pidx < positions.length)) = true ∧
      s = { ns with particles := sortedParticles ns positions
                    cells := builtCells ns positions } := by
  rw [update] at hup
  split at hup
  · exact absurd hup (by simp)
  case isFalse hge =>
    split at hup
    case isFalse => exact absurd hup (by simp)
    case isTrue hall =>
      have hs := (Option.some.inj hup).symm
      subst hs
      exact ⟨by omega, hall, rfl⟩

end NeighborhoodSearch
end Sph2d

namespace Sph2d

/-- The compacted cell table over a sorted particle array with codes below
the sentinel: strictly increasing codes, the sentinel as last (and only
maximal) entry, one entry per non-empty cell, each pointing at the first
particle of its run. -/
theorem cells_invariants (l : List Particle)
    (hsorted : List.Pairwise (fun a b : Particle => a.cidx ≤ b.cidx) l)
    (hlt : ∀ pr ∈ l, pr.cidx < u32Max) :
    List.Pairwise (fun a b : Cell => a.cidx < b.cidx)
        (NeighborhoodSearch.buildCellsAux l 0 u32Max ++
          [{ first_particle := l.length, cidx := u32Max }]) ∧
      (NeighborhoodSearch.buildCellsAux l 0 u32Max ++
          [{ first_particle := l.length, cidx := u32Max : Cell }]).getLast?
        = some { first_particle := l.length, cidx := u32Max } ∧
      (∀ m (hm : m < (NeighborhoodSearch.buildCellsAux l 0 u32Max ++
          [{ first_particle := l.length, cidx := u32Max : Cell }]).length - 1),
        ((NeighborhoodSearch.buildCellsAux l 0 u32Max ++
          [{ first_particle := l.length, cidx := u32Max : Cell }])[m]).cidx < u32Max) ∧
      (∀ k (hk : k < l.length), ∃ m, ∃ hm : m < (NeighborhoodSearch.buildCellsAux l 0 u32Max ++
          [{ first_particle := l.length, cidx := u32Max : Cell }]).length - 1,
        ((NeighborhoodSearch.buildCellsAux l 0 u32Max ++
          [{ first_particle := l.length, cidx := u32Max : Cell }])[m]).cidx = (l[k]).cidx) ∧
      (∀ m (hm : m < (NeighborhoodSearch.buildCellsAux l 0 u32Max ++
          [{ first_particle := l.length, cidx := u32Max : Cell }]).length - 1),
        ∃ hf : ((NeighborhoodSearch.buildCellsAux l 0 u32Max ++
            [{ first_particle := l.length, cidx := u32Max : Cell }])[m]).first_particle < l.length,
          (l[((NeighborhoodSearch.buildCellsAux l 0 u32Max ++
            [{ first_particle := l.length, cidx := u32Max : Cell }])[m]).first_particle]).cidx
            = ((NeighborhoodSearch.buildCellsAux l 0 u32Max ++
              [{ first_particle := l.length, cidx := u32Max : Cell }])[m]).cidx ∧
          (((NeighborhoodSearch.buildCellsAux l 0 u32Max ++
              [{ first_particle := l.length, cidx := u32Max : Cell }])[m]).first_particle = 0 ∨
            ∃ hf1 : ((NeighborhoodSearch.buildCellsAux l 0 u32Max ++
              [{ first_particle := l.length, cidx := u32Max : Cell }])[m]).first_particle - 1
                < l.length,
              (l[((NeighborhoodSearch.buildCellsAux l 0 u32Max ++
                [{ first_particle := l.length, cidx := u32Max : Cell }])[m]).first_particle - 1]).cidx
                ≠ ((NeighborhoodSearch.buildCellsAux l 0 u32Max ++
                  [{ first_particle := l.length, cidx := u32Max : Cell }])[m]).cidx)) := by
  have hshape := NeighborhoodSearch.buildCellsAux_shape l 0 u32Max hsorted
  have hsortcells := NeighborhoodSearch.buildCellsAux_sorted l 0 u32Max hsorted hlt (Or.inl rfl)
  have hcover := NeighborhoodSearch.buildCellsAux_coverage l 0 u32Max hsorted
  have hBlt : ∀ cl ∈ NeighborhoodSearch.buildCellsAux l 0 u32Max, cl.cidx < u32Max := by
    intro cl hcl
    obtain ⟨k, hk, _, hceq, _⟩ := hshape cl hcl
    rw [hceq]
    exact hlt _ (List.getElem_mem hk)
  refine ⟨?_, ?_, ?_, ?_, ?_⟩
  · rw [List.pairwise_append]
    refine ⟨hsortcells.1, by simp, ?_⟩
    intro a ha b hb
    simp only [List.mem_singleton] at hb
    rw [hb]
    exact hBlt a ha
  · rw [List.getLast?_concat]
  · intro m hm
    have hmB : m < (NeighborhoodSearch.buildCellsAux l 0 u32Max).length := by
      simpa using hm
    rw [List.getElem_append_left hmB]
    exact hBlt _ (List.getElem_mem hmB)
  · intro k hk
    rcases hcover k hk with h | ⟨cl, hcl, hceq⟩
    · exact absurd h (Nat.ne_of_lt (hlt _ (List.getElem_mem hk)))
    · obtain ⟨m, hmB, rfl⟩ := List.mem_iff_getElem.mp hcl
      refine ⟨m, by simpa using hmB, ?_⟩
      rw [List.getElem_append_left hmB]
      exact hceq
  · intro m hm
    have hmB : m < (NeighborhoodSearch.buildCellsAux l 0 u32Max).length := by
      simpa using hm
    rw [List.getElem_append_left hmB]
    obtain ⟨k, hk, hfirst, hceq, hrun⟩ := hshape _ (List.getElem_mem hmB)
    simp only [Nat.zero_add] at hfirst
    refine ⟨by rw [hfirst]; exact hk, ?_, ?_⟩
    · simp only [hfirst, hceq]
    · rcases hrun with ⟨hk0, _⟩ | ⟨hk1, hk1m, hne⟩
      · exact Or.inl (by rw [hfirst, hk0])
      · refine Or.inr ⟨by rw [hfirst]; omega, ?_⟩
        simp only [hfirst, hceq]
        exact hne

end Sph2d

namespace Sph2d

/-- C6 (amended): after every successful `update` over `N` positions whose
cell codes are all below the maximum representable value (positions inside
the representable grid), the index holds exactly `N` `(particle_id,
cell_code)` pairs sorted by code; the cell table is strictly increasing, ends
in exactly one sentinel `(u32::MAX, N)`, has one entry per non-empty cell,
and every entry's `first_particle` points at the first sorted pair of its
code's run. -/
theorem update_index_invariants (ns : NeighborhoodSearch) (positions : List Vec)
    (s : NeighborhoodSearch)
    (hup : NeighborhoodSearch.update ns positions = some s)
    (hcode : ∀ p ∈ positions,
      NeighborhoodSearch.position_to_cidx ns.grid_min ns.cell_size_inv p < u32Max) :
    s.particles.length = positions.length ∧
      List.Pairwise (fun a b : Particle => a.cidx ≤ b.cidx) s.particles ∧
      (∀ pr ∈ s.particles, pr.pidx < positions.length ∧
        pr.cidx = NeighborhoodSearch.position_to_cidx ns.grid_min ns.cell_size_inv
          (positions.getD pr.pidx (0, 0))) ∧
      List.Pairwise (fun a b : Cell => a.cidx < b.cidx) s.cells ∧
      s.cells.getLast? = some { first_particle := positions.length, cidx := u32Max } ∧
      (∀ m (hm : m < s.cells.length - 1), (s.cells[m]).cidx < u32Max) ∧
      (∀ k (hk : k < s.particles.length), ∃ m, ∃ hm : m < s.cells.length - 1,
        (s.cells[m]).cidx = (s.particles[k]).cidx) ∧
      (∀ m (hm : m < s.cells.length - 1),
        ∃ hf : (s.cells[m]).first_particle < s.particles.length,
          (s.particles[(s.cells[m]).first_particle]).cidx = (s.cells[m]).cidx ∧
          ((s.cells[m]).first_particle = 0 ∨
            ∃ hf1 : (s.cells[m]).first_particle - 1 < s.particles.length,
              (s.particles[(s.cells[m]).first_particle - 1]).cidx ≠ (s.cells[m]).cidx)) := by
  have H := NeighborhoodSearch.update_eq_some ns positions s hup
  have hge := H.1
  have hall := H.2.1
  have hs := H.2.2
  subst hs
  have hsorted := NeighborhoodSearch.sortedParticles_sorted ns positions
  have hlen := NeighborhoodSearch.sortedParticles_length ns positions hge
  have hmem := NeighborhoodSearch.sortedParticles_mem ns positions hall
  have hlt := NeighborhoodSearch.sortedParticles_lt_max ns positions hall hcode
  have HC := cells_invariants (NeighborhoodSearch.sortedParticles ns positions) hsorted hlt
  refine ⟨hlen, hsorted, hmem, HC.1, ?_, HC.2.2.1, HC.2.2.2.1, HC.2.2.2.2⟩
  rw [← hlen]
  exact HC.2.1

end Sph2d


namespace Sph2d

/-- C6 (counterexample): a successful `update` over the single position
`(130970, 130970)` — whose cell is `(65535, 65535)`, so its Morton code *is*
the sentinel value `u32::MAX` — produces a table whose only entry is the
sentinel `(u32::MAX, 1)`: the non-empty cell of the particle run starting at
index 0 has no entry pointing at it, refuting the claim as stated for
successful calls on out-of-grid positions. -/
theorem update_sentinel_cex :
    ∃ s, NeighborhoodSearch.update (NeighborhoodSearch.new 1)
        [((130970 : ℚ), (130970 : ℚ))] = some s ∧
      s.particles = [{ pidx := 0, cidx := 4294967295 }] ∧
      s.cells = [{ first_particle := 1, cidx := 4294967295 }] ∧
      ¬ (∀ k (hk : k < s.particles.length), ∃ m, ∃ hm : m < s.cells.length - 1,
          (s.cells[m]).cidx = (s.particles[k]).cidx) := by
  have hcidx : NeighborhoodSearch.position_to_cidx ((-100 : ℚ), (-100 : ℚ)) (1 / (1 * 2))
      ((130970 : ℚ), (130970 : ℚ)) = 4294967295 := by
    rw [NeighborhoodSearch.position_to_cidx, NeighborhoodSearch.position_to_cellpos]
    have h1 : ((1 : ℚ) / (1 * 2)) • (((130970 : ℚ), (130970 : ℚ)) - ((-100 : ℚ), (-100 : ℚ)))
        = ((65535 : ℚ), (65535 : ℚ)) := by
      simp [Prod.ext_iff]
      norm_num
    rw [h1]
    have h2 : (⌊(65535 : ℚ)⌋₊ : ℕ) = 65535 := by norm_num
    simp only [h2]
    rw [show min 65535 u32Max = 65535 from by norm_num [u32Max]]
    decide
  have hext : NeighborhoodSearch.extendedParticles (NeighborhoodSearch.new 1)
      [((130970 : ℚ), (130970 : ℚ))] = [{ pidx := 0, cidx := 0 }] := by
    simp [NeighborhoodSearch.extendedParticles, NeighborhoodSearch.new, List.range']
  have hsp : NeighborhoodSearch.sortedParticles (NeighborhoodSearch.new 1)
      [((130970 : ℚ), (130970 : ℚ))] = [{ pidx := 0, cidx := 4294967295 }] := by
    rw [NeighborhoodSearch.sortedParticles, hext]
    simp only [List.map_cons, List.map_nil, List.getD_cons_zero]
    rw [show (NeighborhoodSearch.new 1).grid_min = ((-100 : ℚ), (-100 : ℚ)) from rfl,
      show (NeighborhoodSearch.new 1).cell_size_inv = 1 / (1 * 2) from rfl, hcidx]
    rfl
  have hbc : NeighborhoodSearch.builtCells (NeighborhoodSearch.new 1)
      [((130970 : ℚ), (130970 : ℚ))] = [{ first_particle := 1, cidx := 4294967295 }] := by
    rw [NeighborhoodSearch.builtCells, hsp]
    rw [show u32Max = 4294967295 from rfl]
    rfl
  refine ⟨{ NeighborhoodSearch.new 1 with
      particles := NeighborhoodSearch.sortedParticles (NeighborhoodSearch.new 1)
        [((130970 : ℚ), (130970 : ℚ))]
      cells := NeighborhoodSearch.builtCells (NeighborhoodSearch.new 1)
        [((130970 : ℚ), (130970 : ℚ))] }, ?_, ?_, ?_, ?_⟩
  · rw [NeighborhoodSearch.update]
    rw [if_neg (by simp [NeighborhoodSearch.new])]
    rw [if_pos (by rw [hext]; simp)]
  · simpa using hsp
  · simpa using hbc
  · intro h
    have h0 : (0 : ℕ) < (NeighborhoodSearch.sortedParticles (NeighborhoodSearch.new 1)
        [((130970 : ℚ), (130970 : ℚ))]).length := by
      rw [hsp]; simp
    obtain ⟨m, hm, _⟩ := h 0 h0
    rw [hbc] at hm
    simp at hm

end Sph2d

namespace Sph2d

def ns2pos : List Vec := [((0 : ℚ), (0 : ℚ)), ((3 : ℚ), (3 : ℚ))]

/-- Witness for C6: a successful rebuild over two in-grid positions, with the
invariants delivered by the theorem. -/
theorem update_index_invariants_witness :
    ∃ s, NeighborhoodSearch.update (NeighborhoodSearch.new 1) ns2pos = some s ∧
      s.particles.length = ns2pos.length ∧
      List.Pairwise (fun a b : Particle => a.cidx ≤ b.cidx) s.particles ∧
      List.Pairwise (fun a b : Cell => a.cidx < b.cidx) s.cells ∧
      s.cells.getLast? = some { first_particle := ns2pos.length, cidx := u32Max } := by
  have hc1 : NeighborhoodSearch.position_to_cidx ((-100 : ℚ), (-100 : ℚ)) (1 / (1 * 2))
      ((0 : ℚ), (0 : ℚ)) = 3852 := by
    rw [NeighborhoodSearch.position_to_cidx, NeighborhoodSearch.position_to_cellpos]
    have h1 : ((1 : ℚ) / (1 * 2)) • (((0 : ℚ), (0 : ℚ)) - ((-100 : ℚ), (-100 : ℚ)))
        = ((50 : ℚ), (50 : ℚ)) := by
      simp [Prod.ext_iff]
      norm_num
    rw [h1]
    have h2 : (⌊(50 : ℚ)⌋₊ : ℕ) = 50 := by norm_num
    simp only [h2]
    rw [show min 50 u32Max = 50 from by norm_num [u32Max]]
    decide
  have hc2 : NeighborhoodSearch.position_to_cidx ((-100 : ℚ), (-100 : ℚ)) (1 / (1 * 2))
      ((3 : ℚ), (3 : ℚ)) = 3855 := by
    rw [NeighborhoodSearch.position_to_cidx, NeighborhoodSearch.position_to_cellpos]
    have h1 : ((1 : ℚ) / (1 * 2)) • (((3 : ℚ), (3 : ℚ)) - ((-100 : ℚ), (-100 : ℚ)))
        = ((103 / 2 : ℚ), (103 / 2 : ℚ)) := by
      simp [Prod.ext_iff]
      norm_num
    rw [h1]
    have h2 : (⌊(103 / 2 : ℚ)⌋₊ : ℕ) = 51 := by
      rw [Nat.floor_eq_iff (by norm_num)]
      norm_num
    simp only [h2]
    rw [show min 51 u32Max = 51 from by norm_num [u32Max]]
    decide
  have hcode : ∀ p ∈ ns2pos,
      NeighborhoodSearch.position_to_cidx (NeighborhoodSearch.new 1).grid_min
        (NeighborhoodSearch.new 1).cell_size_inv p < u32Max := by
    intro p hp
    fin_cases hp
    · rw [show (NeighborhoodSearch.new 1).grid_min = ((-100 : ℚ), (-100 : ℚ)) from rfl,
        show (NeighborhoodSearch.new 1).cell_size_inv = 1 / (1 * 2) from rfl, hc1]
      norm_num [u32Max]
    · rw [show (NeighborhoodSearch.new 1).grid_min = ((-100 : ℚ), (-100 : ℚ)) from rfl,
        show (NeighborhoodSearch.new 1).cell_size_inv = 1 / (1 * 2) from rfl, hc2]
      norm_num [u32Max]
  have hup : NeighborhoodSearch.update (NeighborhoodSearch.new 1) ns2pos
      = some { NeighborhoodSearch.new 1 with
          particles := NeighborhoodSearch.sortedParticles (NeighborhoodSearch.new 1) ns2pos
          cells := NeighborhoodSearch.builtCells (NeighborhoodSearch.new 1) ns2pos } := by
    rw [NeighborhoodSearch.update]
    rw [if_neg (by simp [NeighborhoodSearch.new, ns2pos])]
    rw [if_pos ?_]
    simp [NeighborhoodSearch.extendedParticles, NeighborhoodSearch.new, ns2pos,
      show List.range' 0 2 = [0, 1] from rfl]
  have H := update_index_invariants (NeighborhoodSearch.new 1) ns2pos _ hup hcode
  exact ⟨_, hup, H.1, H.2.1, H.2.2.2.1, H.2.2.2.2.1⟩

end Sph2d

namespace Sph2d
namespace Morton

theorem part1by1Aux_strictMono : ∀ (n x y : ℕ), x < y → y < 2 ^ n →
    part1by1Aux n x < part1by1Aux n y := by
  intro n
  induction n with
  | zero => intro x y hxy hy; omega
  | succ n ih =>
    intro x y hxy hy
    rw [part1by1Aux, part1by1Aux]
    rcases Nat.lt_or_ge (x / 2) (y / 2) with h | h
    · have hyb : y / 2 < 2 ^ n := by
        rw [pow_succ] at hy
        omega
      have := ih (x / 2) (y / 2) h hyb
      omega
    · have hx2 : x / 2 = y / 2 := by omega
      rw [hx2]
      omega

theorem part1by1Aux_le_iff (n x y : ℕ) (hx : x < 2 ^ n) (hy : y < 2 ^ n) :
    part1by1Aux n x ≤ part1by1Aux n y ↔ x ≤ y := by
  constructor
  · intro h
    by_contra hlt
    push_neg at hlt
    exact absurd h (Nat.not_le_of_lt (part1by1Aux_strictMono n y x hlt hx))
  · intro h
    rcases Nat.lt_or_ge x y with h2 | h2
    · exact (part1by1Aux_strictMono n x y h2 hy).le
    · have : x = y := by omega
      rw [this]

theorem evenValAux_interleave : ∀ (n x y : ℕ),
    evenValAux n (part1by1Aux n x + 2 * part1by1Aux n y) = part1by1Aux n x := by
  intro n
  induction n with
  | zero => intro x y; rfl
  | succ n ih =>
    intro x y
    have hx : part1by1Aux (n + 1) x = x % 2 + 4 * part1by1Aux n (x / 2) := rfl
    have hy : part1by1Aux (n + 1) y = y % 2 + 4 * part1by1Aux n (y / 2) := rfl
    rw [hx, hy, evenValAux]
    have hm2 : (x % 2 + 4 * part1by1Aux n (x / 2) +
        2 * (y % 2 + 4 * part1by1Aux n (y / 2))) % 2 = x % 2 := by omega
    have hd4 : (x % 2 + 4 * part1by1Aux n (x / 2) +
        2 * (y % 2 + 4 * part1by1Aux n (y / 2))) / 4
        = part1by1Aux n (x / 2) + 2 * part1by1Aux n (y / 2) := by omega
    rw [hm2, hd4, ih (x / 2) (y / 2)]

theorem oddValAux_interleave : ∀ (n x y : ℕ),
    oddValAux n (part1by1Aux n x + 2 * part1by1Aux n y) = 2 * part1by1Aux n y := by
  intro n
  induction n with
  | zero => intro x y; rfl
  | succ n ih =>
    intro x y
    have hx : part1by1Aux (n + 1) x = x % 2 + 4 * part1by1Aux n (x / 2) := rfl
    have hy : part1by1Aux (n + 1) y = y % 2 + 4 * part1by1Aux n (y / 2) := rfl
    rw [hx, hy, oddValAux]
    have hm2 : ((x % 2 + 4 * part1by1Aux n (x / 2) +
        2 * (y % 2 + 4 * part1by1Aux n (y / 2))) / 2) % 2 = y % 2 := by omega
    have hd4 : (x % 2 + 4 * part1by1Aux n (x / 2) +
        2 * (y % 2 + 4 * part1by1Aux n (y / 2))) / 4
        = part1by1Aux n (x / 2) + 2 * part1by1Aux n (y / 2) := by omega
    rw [hm2, hd4, ih (x / 2) (y / 2)]
    omega

theorem evenValAux_add_oddValAux : ∀ (n c : ℕ), c < 4 ^ n →
    evenValAux n c + oddValAux n c = c := by
  intro n
  induction n with
  | zero => intro c hc; interval_cases c; rfl
  | succ n ih =>
    intro c hc
    rw [evenValAux, oddValAux]
    have hd : c / 4 < 4 ^ n := by
      rw [pow_succ] at hc
      omega
    have := ih (c / 4) hd
    omega

theorem evenVal_interleave (x y : ℕ) :
    evenVal (encode x y) = part_1by1 x :=
  evenValAux_interleave 16 x y

theorem oddVal_interleave (x y : ℕ) :
    oddVal (encode x y) = 2 * part_1by1 y :=
  oddValAux_interleave 16 x y

theorem is_in_rect_presplit_iff (x y xmin ymin xmax ymax : ℕ)
    (hx : x < 2 ^ 16) (hy : y < 2 ^ 16) (hxmin : xmin < 2 ^ 16) (hymin : ymin < 2 ^ 16)
    (hxmax : xmax < 2 ^ 16) (hymax : ymax < 2 ^ 16) :
    is_in_rect_presplit (encode x y) (part_1by1 xmin) (2 * part_1by1 ymin)
        (part_1by1 xmax) (2 * part_1by1 ymax) = true
      ↔ (xmin ≤ x ∧ x ≤ xmax ∧ ymin ≤ y ∧ y ≤ ymax) := by
  rw [is_in_rect_presplit]
  rw [evenVal_interleave, oddVal_interleave]
  simp only [Bool.and_eq_true, decide_eq_true_eq]
  simp only [part_1by1]
  rw [part1by1Aux_le_iff 16 xmin x hxmin hx, part1by1Aux_le_iff 16 x xmax hx hxmax]
  constructor
  · intro h
    refine ⟨h.1.1.1, h.1.1.2, ?_, ?_⟩
    · exact (part1by1Aux_le_iff 16 ymin y hymin hy).mp (by omega)
    · exact (part1by1Aux_le_iff 16 y ymax hy hymax).mp (by omega)
  · intro h
    refine ⟨⟨⟨h.1, h.2.1⟩, ?_⟩, ?_⟩
    · have := (part1by1Aux_le_iff 16 ymin y hymin hy).mpr h.2.2.1
      omega
    · have := (part1by1Aux_le_iff 16 y ymax hy hymax).mpr h.2.2.2
      omega

theorem in_rect_code_between (c xmin ymin xmax ymax : ℕ) (hc : c < 4 ^ 16)
    (h : is_in_rect_presplit c (part_1by1 xmin) (2 * part_1by1 ymin)
      (part_1by1 xmax) (2 * part_1by1 ymax) = true) :
    encode xmin ymin ≤ c ∧ c ≤ encode xmax ymax := by
  rw [is_in_rect_presplit] at h
  simp only [Bool.and_eq_true, decide_eq_true_eq] at h
  have hsum := evenValAux_add_oddValAux 16 c hc
  rw [encode, encode]
  rw [evenVal, oddVal] at *
  omega

end Morton
end Sph2d

namespace Sph2d
namespace Morton

theorem bigminAux_ge (minxb minyb maxxb maxyb : ℕ) :
    ∀ (fuel c0 : ℕ), c0 ≤ bigminAux minxb minyb maxxb maxyb c0 fuel := by
  intro fuel
  induction fuel with
  | zero => intro c0; exact le_refl c0
  | succ fuel ih =>
    intro c0
    rw [bigminAux]
    split
    · exact le_refl c0
    · exact le_trans (Nat.le_succ c0) (ih (c0 + 1))

theorem bigminAux_not_in_rect (minxb minyb maxxb maxyb : ℕ) :
    ∀ (fuel c0 c' : ℕ), c0 ≤ c' → c' < bigminAux minxb minyb maxxb maxyb c0 fuel →
      ¬ is_in_rect_presplit c' minxb minyb maxxb maxyb = true := by
  intro fuel
  induction fuel with
  | zero =>
    intro c0 c' h1 h2
    rw [bigminAux] at h2
    omega
  | succ fuel ih =>
    intro c0 c' h1 h2
    rw [bigminAux] at h2
    split at h2
    · omega
    case isFalse hnot =>
      rcases Nat.eq_or_lt_of_le h1 with h | h
      · exact h ▸ hnot
      · exact ih (c0 + 1) c' h h2

theorem bigminAux_exhaust_or_in_rect (minxb minyb maxxb maxyb : ℕ) :
    ∀ (fuel c0 : ℕ), bigminAux minxb minyb maxxb maxyb c0 fuel = c0 + fuel ∨
      is_in_rect_presplit (bigminAux minxb minyb maxxb maxyb c0 fuel) minxb minyb maxxb maxyb
        = true := by
  intro fuel
  induction fuel with
  | zero => intro c0; exact Or.inl rfl
  | succ fuel ih =>
    intro c0
    rw [bigminAux]
    split
    case isTrue h => exact Or.inr h
    case isFalse h =>
      rcases ih (c0 + 1) with h2 | h2
      · exact Or.inl (by omega)
      · exact Or.inr h2

theorem find_bigmin_gt (c cmin cmax : ℕ) : c < find_bigmin c cmin cmax := by
  rw [find_bigmin]
  exact lt_of_lt_of_le (Nat.lt_succ_self c)
    (bigminAux_ge (evenVal cmin) (oddVal cmin) (evenVal cmax) (oddVal cmax) (cmax - c) (c + 1))

theorem find_bigmin_skip (c cmin cmax c' : ℕ) (h1 : c < c') (h2 : c' < find_bigmin c cmin cmax) :
    ¬ is_in_rect_presplit c' (evenVal cmin) (oddVal cmin) (evenVal cmax) (oddVal cmax) = true := by
  rw [find_bigmin] at h2
  exact bigminAux_not_in_rect (evenVal cmin) (oddVal cmin) (evenVal cmax) (oddVal cmax)
    (cmax - c) (c + 1) c' h1 h2

theorem find_bigmin_in_rect (c cmin cmax : ℕ) (hc : c ≤ cmax)
    (h : find_bigmin c cmin cmax ≤ cmax) :
    is_in_rect_presplit (find_bigmin c cmin cmax) (evenVal cmin) (oddVal cmin)
      (evenVal cmax) (oddVal cmax) = true := by
  rcases bigminAux_exhaust_or_in_rect (evenVal cmin) (oddVal cmin) (evenVal cmax) (oddVal cmax)
    (cmax - c) (c + 1) with h2 | h2
  · rw [find_bigmin] at h
    omega
  · rw [find_bigmin]
    exact h2

end Morton
end Sph2d

namespace Sph2d
namespace NeighborhoodSearch

/-- The start of cell `m` in a cell list, or `endIdx` past the last cell. -/
def cellUpper (B : List Cell) (endIdx m : ℕ) : ℕ :=
  if h : m < B.length then (B[m]).first_particle else endIdx

theorem cellUpper_cons (c : Cell) (B : List Cell) (e m : ℕ) :
    cellUpper (c :: B) e (m + 1) = cellUpper B e m := by
  rw [cellUpper, cellUpper]
  by_cases h : m < B.length
  · rw [dif_pos (by simpa using Nat.succ_lt_succ h), dif_pos h]
    simp
  · rw [dif_neg (by simpa using fun hh => h (Nat.lt_of_succ_lt_succ hh)), dif_neg h]

theorem cellUpper_ge (l : List Particle) (i prev e m : ℕ)
    (hsorted : List.Pairwise (fun a b => a.cidx ≤ b.cidx) l) (he : i ≤ e) :
    i ≤ cellUpper (buildCellsAux l i prev) e m := by
  rw [cellUpper]
  split
  case isTrue h =>
    obtain ⟨t, ht, hfirst, _, _⟩ :=
      buildCellsAux_shape l i prev hsorted _ (List.getElem_mem h)
    omega
  case isFalse h => exact he

theorem buildCellsAux_before_first (l : List Particle) :
    ∀ (i prev : ℕ), List.Pairwise (fun a b => a.cidx ≤ b.cidx) l →
      ∀ k (hk : k < l.length),
        i + k < cellUpper (buildCellsAux l i prev) (i + l.length) 0 →
        (l[k]).cidx = prev := by
  induction l with
  | nil => intro i prev _ k hk; simp at hk
  | cons p rest ih =>
    intro i prev hsorted k hk hlt
    rw [List.pairwise_cons] at hsorted
    rw [buildCellsAux] at hlt
    split at hlt
    case isTrue hne =>
      rw [cellUpper] at hlt
      simp at hlt
    case isFalse heq =>
      push_neg at heq
      match k with
      | 0 => simpa using heq
      | k + 1 =>
        have hee : (i + 1) + rest.length = i + (p :: rest).length := by
          rw [List.length_cons]
          omega
        have harg : (i + 1) + k < cellUpper (buildCellsAux rest (i + 1) prev)
            ((i + 1) + rest.length) 0 := by
          rw [hee]
          omega
        have := ih (i + 1) prev hsorted.2 k (by simpa using hk) harg
        simpa using this
end NeighborhoodSearch
end Sph2d

namespace Sph2d
namespace NeighborhoodSearch

theorem sorted_cidx_le (l : List Particle)
    (hsorted : List.Pairwise (fun a b => a.cidx ≤ b.cidx) l)
    (t k : ℕ) (ht : t < l.length) (hk : k < l.length) (htk : t ≤ k) :
    (l[t]).cidx ≤ (l[k]).cidx := by
  rcases Nat.eq_or_lt_of_le htk with h | h
  · subst h; exact le_refl _
  · exact List.pairwise_iff_getElem.mp hsorted t k ht hk h

theorem buildCellsAux_slice (l : List Particle) :
    ∀ (i prev : ℕ), List.Pairwise (fun a b => a.cidx ≤ b.cidx) l →
      (∀ x ∈ l, x.cidx < u32Max) →
      (prev = u32Max ∨ ∀ x ∈ l, prev ≤ x.cidx) →
      ∀ m (hm : m < (buildCellsAux l i prev).length) k (hk : k < l.length),
        ((((buildCellsAux l i prev)[m]).first_particle ≤ i + k) ∧
          i + k < cellUpper (buildCellsAux l i prev) (i + l.length) (m + 1))
        ↔ (l[k]).cidx = ((buildCellsAux l i prev)[m]).cidx := by
  induction l with
  | nil => intro i prev _ _ _ m hm; simp [buildCellsAux] at hm
  | cons p rest ih =>
    intro i prev hsorted hlt hprev m hm k hk
    rw [List.pairwise_cons] at hsorted
    have hltr : ∀ x ∈ rest, x.cidx < u32Max := fun x hx => hlt x (List.mem_cons_of_mem _ hx)
    have hpne : p.cidx ≠ u32Max := Nat.ne_of_lt (hlt p (List.mem_cons_self p rest))
    by_cases hne : p.cidx = prev
    · -- the running code continues: no new cell
      have hB : buildCellsAux (p :: rest) i prev = buildCellsAux rest (i + 1) prev := by
        rw [buildCellsAux]
        simp [hne]
      have hprevne : prev ≠ u32Max := hne ▸ hpne
      have hprev' : prev = u32Max ∨ ∀ x ∈ rest, prev ≤ x.cidx :=
        Or.inr (fun x hx => hne ▸ hsorted.1 x hx)
      have hgt := (buildCellsAux_sorted rest (i + 1) prev hsorted.2 hltr hprev').2
      simp only [hB] at hm ⊢
      match k, hk with
      | 0, hk =>
        constructor
        · intro h
          obtain ⟨t, ht, hfirst, _, _⟩ :=
            buildCellsAux_shape rest (i + 1) prev hsorted.2 _ (List.getElem_mem hm)
          omega
        · intro hc
          exfalso
          rcases hgt _ (List.getElem_mem hm) with h | h
          · exact hprevne h
          · simp only [List.getElem_cons_zero] at hc
            omega
      | k + 1, hk =>
        have hee : (i + 1) + rest.length = i + (p :: rest).length := by
          rw [List.length_cons]; omega
        have hidx : i + (k + 1) = (i + 1) + k := by omega
        have := ih (i + 1) prev hsorted.2 hltr hprev' m hm k (by simpa using hk)
        rw [hee] at this
        rw [hidx]
        simpa using this
    · -- a new cell is pushed for p's run
      have hB : buildCellsAux (p :: rest) i prev
          = { first_particle := i, cidx := p.cidx } :: buildCellsAux rest (i + 1) p.cidx := by
        rw [buildCellsAux]
        simp [hne]
      have hprev' : p.cidx = u32Max ∨ ∀ x ∈ rest, p.cidx ≤ x.cidx := Or.inr hsorted.1
      have hgt := (buildCellsAux_sorted rest (i + 1) p.cidx hsorted.2 hltr hprev').2
      simp only [hB] at hm ⊢
      match m, hm with
      | 0, hm =>
        rw [cellUpper_cons]
        have hc0 : ({ first_particle := i, cidx := p.cidx } : Cell).cidx = p.cidx := rfl
        have hf0 : ({ first_particle := i, cidx := p.cidx } : Cell).first_particle = i := rfl
        simp only [List.getElem_cons_zero, hc0, hf0]
        match k, hk with
        | 0, hk =>
          have hcu := cellUpper_ge rest (i + 1) p.cidx (i + (p :: rest).length) 0 hsorted.2
            (by rw [List.length_cons]; omega)
          simp only [List.getElem_cons_zero]
          constructor
          · intro _; trivial
          · intro _
            exact ⟨by omega, by omega⟩
        | k + 1, hk =>
          simp only [List.getElem_cons_succ]
          constructor
          · intro h
            have hee : (i + 1) + rest.length = i + (p :: rest).length := by
              rw [List.length_cons]; omega
            refine buildCellsAux_before_first rest (i + 1) p.cidx hsorted.2 k
              (by simpa using hk) ?_
            rw [hee]
            omega
          · intro hrk
            refine ⟨by omega, ?_⟩
            by_contra hge
            push_neg at hge
            rw [cellUpper] at hge
            split at hge
            case isTrue hB0 =>
              obtain ⟨t, ht, hfirst, hcidx0, _⟩ :=
                buildCellsAux_shape rest (i + 1) p.cidx hsorted.2 _ (List.getElem_mem hB0)
              rcases hgt _ (List.getElem_mem hB0) with h | h
              · exact hpne h
              · have htk : t ≤ k := by omega
                have hsk := sorted_cidx_le rest hsorted.2 t k ht (by simpa using hk) htk
                omega
            case isFalse hB0 =>
              rw [List.length_cons] at hge
              have hk' : k + 1 < rest.length + 1 := by
                rw [List.length_cons] at hk; exact hk
              omega
      | m + 1, hm =>
        rw [cellUpper_cons]
        simp only [List.getElem_cons_succ]
        have hmB : m < (buildCellsAux rest (i + 1) p.cidx).length := by simpa using hm
        match k, hk with
        | 0, hk =>
          constructor
          · intro h
            obtain ⟨t, ht, hfirst, _, _⟩ :=
              buildCellsAux_shape rest (i + 1) p.cidx hsorted.2 _ (List.getElem_mem hmB)
            omega
          · intro hc
            exfalso
            rcases hgt _ (List.getElem_mem hmB) with h | h
            · exact hpne h
            · simp only [List.getElem_cons_zero] at hc
              omega
        | k + 1, hk =>
          have hee : (i + 1) + rest.length = i + (p :: rest).length := by
            rw [List.length_cons]; omega
          have hidx : i + (k + 1) = (i + 1) + k := by omega
          have := ih (i + 1) p.cidx hsorted.2 hltr hprev' m hmB k (by simpa using hk)
          rw [hee] at this
          rw [hidx]
          simpa using this

end NeighborhoodSearch
end Sph2d

namespace Sph2d
namespace Morton

theorem bigminAux_le (minxb minyb maxxb maxyb : ℕ) :
    ∀ (fuel c0 : ℕ), bigminAux minxb minyb maxxb maxyb c0 fuel ≤ c0 + fuel := by
  intro fuel
  induction fuel with
  | zero => intro c0; rw [bigminAux]; omega
  | succ fuel ih =>
    intro c0
    rw [bigminAux]
    split
    · omega
    · have := ih (c0 + 1)
      omega

theorem find_bigmin_le (c cmin cmax : ℕ) (h : c ≤ cmax) :
    find_bigmin c cmin cmax ≤ cmax + 1 := by
  rw [find_bigmin]
  have := bigminAux_le (evenVal cmin) (oddVal cmin) (evenVal cmax) (oddVal cmax)
    (cmax - c) (c + 1)
  omega

end Morton

namespace NeighborhoodSearch

/-- Cell codes along a strictly sorted cell array are monotone in the index. -/
theorem sorted_cells_le (C : List Cell)
    (hs : List.Pairwise (fun a b : Cell => a.cidx < b.cidx) C)
    (t k : ℕ) (ht : t < C.length) (hk : k < C.length) (htk : t ≤ k) :
    (C[t]).cidx ≤ (C[k]).cidx := by
  rcases Nat.eq_or_lt_of_le htk with h | h
  · subst h; exact le_refl _
  · exact le_of_lt (List.pairwise_iff_getElem.mp hs t k ht hk h)

/-- The full cell table `NeighborhoodSearch::update` stores: the compacted run
cells followed by the sentinel. -/
def fullCells (l : List Particle) : List Cell :=
  buildCellsAux l 0 u32Max ++ [{ first_particle := l.length, cidx := u32Max }]

theorem builtCells_eq_fullCells (ns : NeighborhoodSearch) (positions : List Vec) :
    builtCells ns positions = fullCells (sortedParticles ns positions) := rfl

theorem fullCells_length (l : List Particle) :
    (fullCells l).length = (buildCellsAux l 0 u32Max).length + 1 := by
  rw [fullCells, List.length_append, List.length_singleton]

theorem fullCells_length_pos (l : List Particle) : 0 < (fullCells l).length := by
  rw [fullCells_length]; omega

theorem fullCells_last (l : List Particle) :
    ∀ h : (fullCells l).length - 1 < (fullCells l).length,
      (fullCells l)[(fullCells l).length - 1]
        = { first_particle := l.length, cidx := u32Max } := by
  intro h
  simp only [fullCells] at h ⊢
  have hidx : (buildCellsAux l 0 u32Max ++
      [{ first_particle := l.length, cidx := u32Max : Cell }]).length - 1
      = (buildCellsAux l 0 u32Max).length := by simp
  exact List.getElem_concat_length _ _ _ hidx _

theorem fullCells_getElem_left (l : List Particle) (m : ℕ)
    (hm : m < (buildCellsAux l 0 u32Max).length) :
    ∀ h : m < (fullCells l).length,
      (fullCells l)[m] = (buildCellsAux l 0 u32Max)[m] := by
  intro h
  simp only [fullCells] at h ⊢
  exact List.getElem_append_left hm

end NeighborhoodSearch
end Sph2d

namespace Sph2d
namespace NeighborhoodSearch

/-- The particle range of cell `m` in the full table is exactly the run of
its cell code: `first_particle ≤ k < next first_particle` iff particle `k`
has this cell's code. -/
theorem fullCells_slice (l : List Particle)
    (hsorted : List.Pairwise (fun a b => a.cidx ≤ b.cidx) l)
    (hlt : ∀ x ∈ l, x.cidx < u32Max) :
    ∀ m (hm1 : m + 1 < (fullCells l).length) k (hk : k < l.length),
      (((fullCells l)[m]).first_particle ≤ k ∧
          k < ((fullCells l)[m + 1]).first_particle)
        ↔ (l[k]).cidx = ((fullCells l)[m]).cidx := by
  intro m hm1 k hk
  have hm : m < (buildCellsAux l 0 u32Max).length := by
    rw [fullCells_length] at hm1; omega
  have hslice := buildCellsAux_slice l 0 u32Max hsorted hlt (Or.inl rfl) m hm k hk
  simp only [Nat.zero_add] at hslice
  have hupper : cellUpper (buildCellsAux l 0 u32Max) l.length (m + 1)
      = ((fullCells l)[m + 1]).first_particle := by
    rw [cellUpper]
    by_cases h2 : m + 1 < (buildCellsAux l 0 u32Max).length
    · rw [dif_pos h2, fullCells_getElem_left l (m + 1) h2 hm1]
    · rw [dif_neg h2]
      have h3 : m + 1 = (fullCells l).length - 1 := by
        rw [fullCells_length] at hm1 ⊢
        omega
      have h4 := fullCells_last l (by omega)
      simp only [h3, h4]
  rw [hupper] at hslice
  rw [fullCells_getElem_left l m hm (by omega)]
  exact hslice

/-- Run starts strictly increase along the full cell table. -/
theorem fullCells_first_lt (l : List Particle)
    (hsorted : List.Pairwise (fun a b => a.cidx ≤ b.cidx) l)
    (hlt : ∀ x ∈ l, x.cidx < u32Max) :
    ∀ m (hm1 : m + 1 < (fullCells l).length),
      ((fullCells l)[m]).first_particle < ((fullCells l)[m + 1]).first_particle := by
  intro m hm1
  have hm : m < (buildCellsAux l 0 u32Max).length := by
    rw [fullCells_length] at hm1; omega
  obtain ⟨k, hk, hfirst, hcidx, _⟩ :=
    buildCellsAux_shape l 0 u32Max hsorted _ (List.getElem_mem hm)
  have hin := (fullCells_slice l hsorted hlt m hm1 k hk).mpr
    (by rw [fullCells_getElem_left l m hm (by omega)]; exact hcidx.symm)
  have hfe : ((fullCells l)[m]).first_particle = k := by
    rw [fullCells_getElem_left l m hm (by omega)]
    omega
  omega

theorem fullCells_first_mono_aux (l : List Particle)
    (hsorted : List.Pairwise (fun a b => a.cidx ≤ b.cidx) l)
    (hlt : ∀ x ∈ l, x.cidx < u32Max) :
    ∀ d m (hd : m + d < (fullCells l).length),
      ((fullCells l)[m]).first_particle ≤ ((fullCells l)[m + d]).first_particle := by
  intro d
  induction d with
  | zero => intro m hd; simp
  | succ d ih =>
    intro m hd
    have h1 := ih m (by omega)
    have h2 := fullCells_first_lt l hsorted hlt (m + d) (by omega)
    show ((fullCells l)[m]).first_particle ≤ ((fullCells l)[m + d + 1]).first_particle
    omega

/-- Run starts are monotone along the full cell table. -/
theorem fullCells_first_mono (l : List Particle)
    (hsorted : List.Pairwise (fun a b => a.cidx ≤ b.cidx) l)
    (hlt : ∀ x ∈ l, x.cidx < u32Max)
    (m m' : ℕ) (hmm : m ≤ m') (hm' : m' < (fullCells l).length) :
    ((fullCells l)[m]).first_particle ≤ ((fullCells l)[m']).first_particle := by
  obtain ⟨d, rfl⟩ : ∃ d, m' = m + d := ⟨m' - m, by omega⟩
  exact fullCells_first_mono_aux l hsorted hlt d m hm'

/-- A particle interval bounded by two run starts decomposes into whole runs. -/
theorem fullCells_run_decomp (l : List Particle)
    (hsorted : List.Pairwise (fun a b => a.cidx ≤ b.cidx) l)
    (hlt : ∀ x ∈ l, x.cidx < u32Max) :
    ∀ d mA (hB : mA + d + 1 < (fullCells l).length) (k : ℕ),
      (((fullCells l)[mA]).first_particle ≤ k ∧
          k < ((fullCells l)[mA + d + 1]).first_particle) ↔
        ∃ m, mA ≤ m ∧ m ≤ mA + d ∧ ∃ hm1 : m + 1 < (fullCells l).length,
          ((fullCells l)[m]).first_particle ≤ k ∧
            k < ((fullCells l)[m + 1]).first_particle := by
  intro d
  induction d with
  | zero =>
    intro mA hB k
    constructor
    · intro h
      exact ⟨mA, le_refl mA, by omega, by omega, h.1, h.2⟩
    · intro ⟨m, hm1, hm2, hm3, h3⟩
      have hme : m = mA := by omega
      subst hme
      exact ⟨h3.1, h3.2⟩
  | succ d ih =>
    intro mA hB k
    constructor
    · intro h
      by_cases hcase : k < ((fullCells l)[mA + d + 1]).first_particle
      · obtain ⟨m, hm1, hm2, hm3, h3⟩ := (ih mA (by omega) k).mp ⟨h.1, hcase⟩
        exact ⟨m, hm1, by omega, hm3, h3⟩
      · refine ⟨mA + d + 1, by omega, by omega, by omega, by omega, ?_⟩
        exact h.2
    · intro ⟨m, hm1, hm2, hm3, h3⟩
      constructor
      · have := fullCells_first_mono l hsorted hlt mA m hm1 (by omega)
        omega
      · have := fullCells_first_mono l hsorted hlt (m + 1) (mA + (d + 1) + 1)
          (by omega) hB
        omega

/-- Every particle's code has a (non-sentinel) cell entry in the full table. -/
theorem fullCells_coverage (l : List Particle)
    (hsorted : List.Pairwise (fun a b => a.cidx ≤ b.cidx) l)
    (hlt : ∀ x ∈ l, x.cidx < u32Max) :
    ∀ k (hk : k < l.length), ∃ m, ∃ hm1 : m + 1 < (fullCells l).length,
      ((fullCells l)[m]).cidx = (l[k]).cidx := by
  intro k hk
  rcases buildCellsAux_coverage l 0 u32Max hsorted k hk with h | ⟨cl, hcl, hceq⟩
  · exact absurd h (Nat.ne_of_lt (hlt _ (List.getElem_mem hk)))
  · obtain ⟨m, hmB, rfl⟩ := List.mem_iff_getElem.mp hcl
    refine ⟨m, by rw [fullCells_length]; omega, ?_⟩
    rw [fullCells_getElem_left l m hmB (by rw [fullCells_length]; omega)]
    exact hceq

/-- Non-sentinel entries of the full cell table have codes below the sentinel
value, and the table is strictly sorted with the sentinel last. -/
theorem fullCells_sorted (l : List Particle)
    (hsorted : List.Pairwise (fun a b => a.cidx ≤ b.cidx) l)
    (hlt : ∀ x ∈ l, x.cidx < u32Max) :
    List.Pairwise (fun a b : Cell => a.cidx < b.cidx) (fullCells l) := by
  have HC := cells_invariants l hsorted hlt
  exact HC.1

theorem fullCells_code_le (l : List Particle)
    (hsorted : List.Pairwise (fun a b => a.cidx ≤ b.cidx) l)
    (hlt : ∀ x ∈ l, x.cidx < u32Max) :
    ∀ m (hm : m < (fullCells l).length), ((fullCells l)[m]).cidx ≤ u32Max := by
  intro m hm
  have hlast := fullCells_last l (by have := fullCells_length_pos l; omega)
  have := sorted_cells_le (fullCells l) (fullCells_sorted l hsorted hlt) m
    ((fullCells l).length - 1) hm (by have := fullCells_length_pos l; omega) (by omega)
  rw [hlast] at this
  exact this

end NeighborhoodSearch
end Sph2d

namespace Sph2d
namespace NeighborhoodSearch

/-- A cell code above the query maximum is never inside the query rectangle
(all codes involved are 32-bit). -/
theorem not_in_rect_of_gt_cmax (xmin ymin xmax ymax c : ℕ)
    (hc : c ≤ u32Max) (hgt : Morton.encode xmax ymax < c) :
    ¬ Morton.is_in_rect_presplit c (Morton.part_1by1 xmin) (2 * Morton.part_1by1 ymin)
      (Morton.part_1by1 xmax) (2 * Morton.part_1by1 ymax) = true := by
  intro hin
  have h4 : c < 4 ^ 16 := by
    have : u32Max < 4 ^ 16 := by norm_num [u32Max]
    omega
  have := Morton.in_rect_code_between c xmin ymin xmax ymax h4 hin
  omega

/-- The inner skip loop: it always terminates without a panic, and it returns
either the first in-rectangle cell at or after the start index, or `none`
after establishing that no cell from the start index on is in the rectangle. -/
theorem skipLoop_spec (C : List Cell)
    (hsC : List.Pairwise (fun a b : Cell => a.cidx < b.cidx) C)
    (hpos : 0 < C.length)
    (hlastc : (C[C.length - 1]).cidx = u32Max)
    (xmin ymin xmax ymax : ℕ)
    (hxmin : xmin < 2 ^ 16) (hymin : ymin < 2 ^ 16)
    (hxmax : xmax < 2 ^ 16) (hymax : ymax < 2 ^ 16)
    (hmx : xmin ≤ xmax) (hmy : ymin ≤ ymax)
    (hcmaxlt : Morton.encode xmax ymax < u32Max) :
    ∀ fuel idx nm (hidx : idx < C.length)
      (hle : (C[idx]).cidx ≤ Morton.encode xmax ymax)
      (hfuel : C.length ≤ idx + fuel),
      ∃ r, skipLoop C (Morton.part_1by1 xmin) (2 * Morton.part_1by1 ymin)
          (Morton.part_1by1 xmax) (2 * Morton.part_1by1 ymax)
          (Morton.encode xmin ymin) (Morton.encode xmax ymax) idx nm fuel = some r ∧
        ((∃ j, r = some j ∧ idx ≤ j ∧ ∃ hj : j < C.length,
            Morton.is_in_rect_presplit (C[j]).cidx (Morton.part_1by1 xmin)
              (2 * Morton.part_1by1 ymin) (Morton.part_1by1 xmax)
              (2 * Morton.part_1by1 ymax) = true ∧
            ∀ m (hm : m < C.length), idx ≤ m → m < j →
              ¬ Morton.is_in_rect_presplit (C[m]).cidx (Morton.part_1by1 xmin)
                (2 * Morton.part_1by1 ymin) (Morton.part_1by1 xmax)
                (2 * Morton.part_1by1 ymax) = true) ∨
          (r = none ∧ ∀ m (hm : m < C.length), idx ≤ m →
            ¬ Morton.is_in_rect_presplit (C[m]).cidx (Morton.part_1by1 xmin)
              (2 * Morton.part_1by1 ymin) (Morton.part_1by1 xmax)
              (2 * Morton.part_1by1 ymax) = true)) := by
  have hcode_le : ∀ m (hm : m < C.length), (C[m]).cidx ≤ u32Max := by
    intro m hm
    have := sorted_cells_le C hsC m (C.length - 1) hm (by omega) (by omega)
    rw [hlastc] at this
    exact this
  have hcmax_in : Morton.is_in_rect_presplit (Morton.encode xmax ymax)
      (Morton.part_1by1 xmin) (2 * Morton.part_1by1 ymin) (Morton.part_1by1 xmax)
      (2 * Morton.part_1by1 ymax) = true :=
    (Morton.is_in_rect_presplit_iff xmax ymax xmin ymin xmax ymax hxmax hymax hxmin
      hymin hxmax hymax).mpr ⟨hmx, le_refl xmax, hmy, le_refl ymax⟩
  intro fuel
  induction fuel with
  | zero => intro idx nm hidx hle hfuel; omega
  | succ fuel ih =>
    intro idx nm hidx hle hfuel
    have hget : C.get? idx = some (C[idx]) := by
      rw [List.get?_eq_getElem?, List.getElem?_eq_getElem hidx]
    rw [skipLoop, hget]
    dsimp only
    by_cases hin : Morton.is_in_rect_presplit (C[idx]).cidx (Morton.part_1by1 xmin)
        (2 * Morton.part_1by1 ymin) (Morton.part_1by1 xmax)
        (2 * Morton.part_1by1 ymax) = true
    · rw [if_pos hin]
      exact ⟨some idx, rfl, Or.inl ⟨idx, rfl, le_refl idx, hidx, hin,
        fun m hm h1 h2 => absurd (lt_of_le_of_lt h1 h2) (lt_irrefl idx)⟩⟩
    · rw [if_neg hin]
      have hidx1 : idx < C.length - 1 := by
        rcases Nat.lt_or_ge idx (C.length - 1) with h | h
        · exact h
        · exfalso
          have hh : idx = C.length - 1 := by omega
          subst hh
          rw [hlastc] at hle
          omega
      by_cases h8 : nm + 1 > 8
      · -- BIGMIN jump
        rw [if_pos h8]
        have hclt : (C[idx]).cidx < Morton.encode xmax ymax :=
          lt_of_le_of_ne hle (fun h => hin (by rw [h]; exact hcmax_in))
        have hbg_gt := Morton.find_bigmin_gt (C[idx]).cidx (Morton.encode xmin ymin)
          (Morton.encode xmax ymax)
        have hbg_le := Morton.find_bigmin_le (C[idx]).cidx (Morton.encode xmin ymin)
          (Morton.encode xmax ymax) (le_of_lt hclt)
        have hdlen : (C.drop idx).length = C.length - idx := List.length_drop idx C
        have hdsorted : List.Pairwise (fun a b : Cell => a.cidx < b.cidx) (C.drop idx) :=
          hsC.sublist (List.drop_sublist idx C)
        have fcc := find_next_cell_correct (C.drop idx)
          (Morton.find_bigmin (C[idx]).cidx (Morton.encode xmin ymin)
            (Morton.encode xmax ymax)) hdsorted
        have hdget : ∀ t (ht : idx + t < C.length), ∀ hdt : t < (C.drop idx).length,
            (C.drop idx)[t] = C[idx + t] := by
          intro t ht hdt
          exact List.getElem_drop C
        set F := find_next_cell (C.drop idx)
          (Morton.find_bigmin (C[idx]).cidx (Morton.encode xmin ymin)
            (Morton.encode xmax ymax)) with hFN
        have hfnc_pos : 1 ≤ F := by
          rcases Nat.eq_zero_or_pos F with h0 | h0
          · exfalso
            have hlt0 : F < (C.drop idx).length := by rw [h0, hdlen]; omega
            have hthis := fcc.2.2.1 hlt0
            simp only [h0] at hthis
            rw [hdget 0 (by omega) (by rw [hdlen]; omega)] at hthis
            simp only [Nat.add_zero] at hthis
            omega
          · exact h0
        have hfnc_le : idx + F ≤ C.length - 1 := by
          by_contra hcon
          push_neg at hcon
          have hrel : C.length - 1 - idx < (C.drop idx).length := by rw [hdlen]; omega
          have hthis := fcc.2.1 (C.length - 1 - idx) hrel (by omega)
          rw [hdget (C.length - 1 - idx) (by omega) hrel] at hthis
          have he : idx + (C.length - 1 - idx) = C.length - 1 := by omega
          simp only [he] at hthis
          rw [hlastc] at hthis
          omega
        have hidx'lt : idx + F < C.length := by omega
        have hget' : C.get? (idx + F) = some (C[idx + F]) := by
          rw [List.get?_eq_getElem?, List.getElem?_eq_getElem hidx'lt]
        rw [hget']
        dsimp only
        have hskip : ∀ m (hm : m < C.length), idx < m → m < idx + F →
            ¬ Morton.is_in_rect_presplit (C[m]).cidx (Morton.part_1by1 xmin)
              (2 * Morton.part_1by1 ymin) (Morton.part_1by1 xmax)
              (2 * Morton.part_1by1 ymax) = true := by
          intro m hm h1 h2
          have ht : m - idx < (C.drop idx).length := by rw [hdlen]; omega
          have hlt2 := fcc.2.1 (m - idx) ht (by omega)
          rw [hdget (m - idx) (by omega) ht] at hlt2
          have he : idx + (m - idx) = m := by omega
          simp only [he] at hlt2
          have hgt2 : (C[idx]).cidx < (C[m]).cidx :=
            List.pairwise_iff_getElem.mp hsC idx m hidx hm h1
          have hthis := Morton.find_bigmin_skip (C[idx]).cidx (Morton.encode xmin ymin)
            (Morton.encode xmax ymax) (C[m]).cidx hgt2 hlt2
          rw [Morton.evenVal_interleave, Morton.oddVal_interleave,
            Morton.evenVal_interleave, Morton.oddVal_interleave] at hthis
          exact hthis
        by_cases hgt : (C[idx + F]).cidx > Morton.encode xmax ymax
        · rw [if_pos hgt]
          refine ⟨none, rfl, Or.inr ⟨rfl, ?_⟩⟩
          intro m hm h1
          rcases Nat.eq_or_lt_of_le h1 with h | h
          · exact h ▸ hin
          · rcases Nat.lt_or_ge m (idx + F) with h2 | h2
            · exact hskip m hm h h2
            · refine not_in_rect_of_gt_cmax xmin ymin xmax ymax (C[m]).cidx
                (hcode_le m hm) ?_
              have := sorted_cells_le C hsC (idx + F) m hidx'lt hm h2
              omega
        · rw [if_neg hgt]
          push_neg at hgt
          obtain ⟨r, hr, hspec⟩ := ih (idx + F) (nm + 1) hidx'lt hgt (by omega)
          refine ⟨r, hr, ?_⟩
          rcases hspec with ⟨j, hj1, hj2, hj3, hj4, hj5⟩ | ⟨hn, hall⟩
          · refine Or.inl ⟨j, hj1, by omega, hj3, hj4, ?_⟩
            intro m hm h1 h2
            rcases Nat.eq_or_lt_of_le h1 with h | h
            · exact h ▸ hin
            · rcases Nat.lt_or_ge m (idx + F) with h3 | h3
              · exact hskip m hm h h3
              · exact hj5 m hm h3 h2
          · refine Or.inr ⟨hn, ?_⟩
            intro m hm h1
            rcases Nat.eq_or_lt_of_le h1 with h | h
            · exact h ▸ hin
            · rcases Nat.lt_or_ge m (idx + F) with h3 | h3
              · exact hskip m hm h h3
              · exact hall m hm h3
      · -- advance by one cell
        rw [if_neg h8]
        have hidx' : idx + 1 < C.length := by omega
        have hget' : C.get? (idx + 1) = some (C[idx + 1]) := by
          rw [List.get?_eq_getElem?, List.getElem?_eq_getElem hidx']
        rw [hget']
        dsimp only
        by_cases hgt : (C[idx + 1]).cidx > Morton.encode xmax ymax
        · rw [if_pos hgt]
          refine ⟨none, rfl, Or.inr ⟨rfl, ?_⟩⟩
          intro m hm h1
          rcases Nat.eq_or_lt_of_le h1 with h | h
          · exact h ▸ hin
          · refine not_in_rect_of_gt_cmax xmin ymin xmax ymax (C[m]).cidx
              (hcode_le m hm) ?_
            have := sorted_cells_le C hsC (idx + 1) m hidx' hm h
            omega
        · rw [if_neg hgt]
          push_neg at hgt
          obtain ⟨r, hr, hspec⟩ := ih (idx + 1) (nm + 1) hidx' hgt (by omega)
          refine ⟨r, hr, ?_⟩
          rcases hspec with ⟨j, hj1, hj2, hj3, hj4, hj5⟩ | ⟨hn, hall⟩
          · refine Or.inl ⟨j, hj1, by omega, hj3, hj4, ?_⟩
            intro m hm h1 h2
            rcases Nat.eq_or_lt_of_le h1 with h | h
            · exact h ▸ hin
            · exact hj5 m hm h h2
          · refine Or.inr ⟨hn, ?_⟩
            intro m hm h1
            rcases Nat.eq_or_lt_of_le h1 with h | h
            · exact h ▸ hin
            · exact hall m hm h

end NeighborhoodSearch
end Sph2d

namespace Sph2d
namespace NeighborhoodSearch

/-- The particle-range loop: starting at an in-rectangle cell it runs to the
first out-of-rectangle cell without panicking (in particular the
`assert_ne!(cell.cidx, cidx_max)` never fires), returning that cell's array
index and run start, with every cell strictly between in the rectangle. -/
theorem consumeScan_spec (C : List Cell)
    (hsC : List.Pairwise (fun a b : Cell => a.cidx < b.cidx) C)
    (hpos : 0 < C.length)
    (hlastc : (C[C.length - 1]).cidx = u32Max)
    (xmin ymin xmax ymax : ℕ)
    (hxmin : xmin < 2 ^ 16) (hymin : ymin < 2 ^ 16)
    (hxmax : xmax < 2 ^ 16) (hymax : ymax < 2 ^ 16)
    (hmx : xmin ≤ xmax) (hmy : ymin ≤ ymax)
    (hcmaxlt : Morton.encode xmax ymax < u32Max) :
    ∀ fuel idxA (hA : idxA < C.length)
      (hinA : Morton.is_in_rect_presplit (C[idxA]).cidx (Morton.part_1by1 xmin)
        (2 * Morton.part_1by1 ymin) (Morton.part_1by1 xmax)
        (2 * Morton.part_1by1 ymax) = true)
      (hfuel : C.length ≤ idxA + fuel),
      ∃ q, consumeScan C (Morton.part_1by1 xmin) (2 * Morton.part_1by1 ymin)
          (Morton.part_1by1 xmax) (2 * Morton.part_1by1 ymax)
          (Morton.encode xmax ymax) idxA fuel = some q ∧
        idxA < q.1 ∧ ∃ hB : q.1 < C.length,
          ¬ Morton.is_in_rect_presplit (C[q.1]).cidx (Morton.part_1by1 xmin)
            (2 * Morton.part_1by1 ymin) (Morton.part_1by1 xmax)
            (2 * Morton.part_1by1 ymax) = true ∧
          q.2 = (C[q.1]).first_particle ∧
          ∀ m (hm : m < C.length), idxA < m → m < q.1 →
            Morton.is_in_rect_presplit (C[m]).cidx (Morton.part_1by1 xmin)
              (2 * Morton.part_1by1 ymin) (Morton.part_1by1 xmax)
              (2 * Morton.part_1by1 ymax) = true := by
  have hcode_le : ∀ m (hm : m < C.length), (C[m]).cidx ≤ u32Max := by
    intro m hm
    have := sorted_cells_le C hsC m (C.length - 1) hm (by omega) (by omega)
    rw [hlastc] at this
    exact this
  have hcmax_in : Morton.is_in_rect_presplit (Morton.encode xmax ymax)
      (Morton.part_1by1 xmin) (2 * Morton.part_1by1 ymin) (Morton.part_1by1 xmax)
      (2 * Morton.part_1by1 ymax) = true :=
    (Morton.is_in_rect_presplit_iff xmax ymax xmin ymin xmax ymax hxmax hymax hxmin
      hymin hxmax hymax).mpr ⟨hmx, le_refl xmax, hmy, le_refl ymax⟩
  have hin_le : ∀ m (hm : m < C.length),
      Morton.is_in_rect_presplit (C[m]).cidx (Morton.part_1by1 xmin)
        (2 * Morton.part_1by1 ymin) (Morton.part_1by1 xmax)
        (2 * Morton.part_1by1 ymax) = true → (C[m]).cidx ≤ Morton.encode xmax ymax := by
    intro m hm hin
    have h4 : (C[m]).cidx < 4 ^ 16 := by
      have h1 := hcode_le m hm
      have : u32Max < 4 ^ 16 := by norm_num [u32Max]
      omega
    exact (Morton.in_rect_code_between (C[m]).cidx xmin ymin xmax ymax h4 hin).2
  intro fuel
  induction fuel with
  | zero => intro idxA hA hinA hfuel; omega
  | succ fuel ih =>
    intro idxA hA hinA hfuel
    have hA1 : idxA < C.length - 1 := by
      rcases Nat.lt_or_ge idxA (C.length - 1) with h | h
      · exact h
      · exfalso
        have hh : idxA = C.length - 1 := by omega
        subst hh
        have := hin_le _ hA hinA
        rw [hlastc] at this
        omega
    have hA' : idxA + 1 < C.length := by omega
    have hget' : C.get? (idxA + 1) = some (C[idxA + 1]) := by
      rw [List.get?_eq_getElem?, List.getElem?_eq_getElem hA']
    rw [consumeScan, hget']
    dsimp only
    by_cases hin' : Morton.is_in_rect_presplit (C[idxA + 1]).cidx (Morton.part_1by1 xmin)
        (2 * Morton.part_1by1 ymin) (Morton.part_1by1 xmax)
        (2 * Morton.part_1by1 ymax) = true
    · rw [if_pos hin']
      obtain ⟨q, hq, hq1, hq2, hq3, hq4, hq5⟩ := ih (idxA + 1) hA' hin' (by omega)
      refine ⟨q, hq, by omega, hq2, hq3, hq4, ?_⟩
      intro m hm h1 h2
      rcases Nat.eq_or_lt_of_le h1 with h | h
      · exact h ▸ hin'
      · exact hq5 m hm h h2
    · rw [if_neg hin']
      have hne : ¬ (C[idxA + 1]).cidx = Morton.encode xmax ymax := by
        intro h
        exact hin' (by rw [h]; exact hcmax_in)
      rw [if_neg hne]
      exact ⟨(idxA + 1, (C[idxA + 1]).first_particle), rfl, Nat.lt_succ_self idxA, hA',
        hin', rfl, fun m hm h1 h2 => absurd (lt_of_le_of_lt h1 h2)
          (by simpa using lt_irrefl (idxA + 1))⟩

end NeighborhoodSearch
end Sph2d

namespace Sph2d
namespace NeighborhoodSearch

/-- Reading the particle ids of an in-bounds index range never panics and
yields exactly the ids stored at those sorted-array slots. -/
theorem particleIds_range (P : List Particle) :
    ∀ n lo (hln : lo + n ≤ P.length),
      ∃ ids, particleIds P (List.range' lo n) = some ids ∧
        ∀ pid, pid ∈ ids ↔ ∃ k, lo ≤ k ∧ k < lo + n ∧ ∃ hk : k < P.length,
          (P[k]).pidx = pid := by
  intro n
  induction n with
  | zero =>
    intro lo hln
    refine ⟨[], rfl, ?_⟩
    intro pid
    simp only [List.not_mem_nil, false_iff]
    intro ⟨k, h1, h2, _⟩
    omega
  | succ n ih =>
    intro lo hln
    have hlo : lo < P.length := by omega
    have hget : P.get? lo = some (P[lo]) := by
      rw [List.get?_eq_getElem?, List.getElem?_eq_getElem hlo]
    obtain ⟨ids, hids, hmem⟩ := ih (lo + 1) (by omega)
    refine ⟨(P[lo]).pidx :: ids, ?_, ?_⟩
    · rw [List.range'_succ, particleIds, hget, hids]
      rfl
    · intro pid
      rw [List.mem_cons, hmem pid]
      constructor
      · intro h
        rcases h with h | ⟨k, h1, h2, hk, h3⟩
        · exact ⟨lo, le_refl lo, by omega, hlo, h.symm⟩
        · exact ⟨k, by omega, by omega, hk, h3⟩
      · intro ⟨k, h1, h2, hk, h3⟩
        rcases Nat.eq_or_lt_of_le h1 with h | h
        · subst h
          exact Or.inl h3.symm
        · exact Or.inr ⟨k, by omega, by omega, hk, h3⟩

end NeighborhoodSearch
end Sph2d

namespace Sph2d
namespace NeighborhoodSearch

/-- Interval between two run starts, as a union of whole runs. -/
theorem fullCells_run_decomp2 (l : List Particle)
    (hsorted : List.Pairwise (fun a b => a.cidx ≤ b.cidx) l)
    (hlt : ∀ x ∈ l, x.cidx < u32Max)
    (mA mB : ℕ) (hAB : mA < mB) (hB : mB < (fullCells l).length) (k : ℕ) :
    (((fullCells l)[mA]).first_particle ≤ k ∧
        k < ((fullCells l)[mB]).first_particle) ↔
      ∃ m, mA ≤ m ∧ m < mB ∧ ∃ hm1 : m + 1 < (fullCells l).length,
        ((fullCells l)[m]).first_particle ≤ k ∧
          k < ((fullCells l)[m + 1]).first_particle := by
  obtain ⟨d, rfl⟩ : ∃ d, mB = mA + d + 1 := ⟨mB - mA - 1, by omega⟩
  rw [fullCells_run_decomp l hsorted hlt d mA hB k]
  constructor
  · intro ⟨m, h1, h2, h3, h4⟩
    exact ⟨m, h1, by omega, h3, h4⟩
  · intro ⟨m, h1, h2, h3, h4⟩
    exact ⟨m, h1, by omega, h3, h4⟩

/-- The outer traversal loop of `foreach_potential_neighbor` never panics and
visits exactly the particles stored in the runs of the in-rectangle cells at
or after the starting array index. -/
theorem outerLoop_spec (l : List Particle)
    (hsorted : List.Pairwise (fun a b => a.cidx ≤ b.cidx) l)
    (hlt : ∀ x ∈ l, x.cidx < u32Max)
    (xmin ymin xmax ymax : ℕ)
    (hxmin : xmin < 2 ^ 16) (hymin : ymin < 2 ^ 16)
    (hxmax : xmax < 2 ^ 16) (hymax : ymax < 2 ^ 16)
    (hmx : xmin ≤ xmax) (hmy : ymin ≤ ymax)
    (hcmaxlt : Morton.encode xmax ymax < u32Max) :
    ∀ fuel idx (hidx : idx < (fullCells l).length)
      (hfuel : (fullCells l).length ≤ idx + fuel),
      ∃ ids, outerLoop (fullCells l) l (Morton.part_1by1 xmin)
          (2 * Morton.part_1by1 ymin) (Morton.part_1by1 xmax)
          (2 * Morton.part_1by1 ymax) (Morton.encode xmin ymin)
          (Morton.encode xmax ymax) idx fuel = some ids ∧
        ∀ pid, pid ∈ ids ↔ ∃ m, idx ≤ m ∧ ∃ hm0 : m < (fullCells l).length,
          ∃ hm1 : m + 1 < (fullCells l).length,
          Morton.is_in_rect_presplit ((fullCells l)[m]).cidx (Morton.part_1by1 xmin)
            (2 * Morton.part_1by1 ymin) (Morton.part_1by1 xmax)
            (2 * Morton.part_1by1 ymax) = true ∧
          ∃ k, ((fullCells l)[m]).first_particle ≤ k ∧
            k < ((fullCells l)[m + 1]).first_particle ∧ ∃ hk : k < l.length,
            (l[k]).pidx = pid := by
  have hsC := fullCells_sorted l hsorted hlt
  have hpos := fullCells_length_pos l
  have hlastC := fullCells_last l (by omega)
  have hlastc := congrArg Cell.cidx hlastC
  have hcode_le := fullCells_code_le l hsorted hlt
  have hfirst_le : ∀ m (hm : m < (fullCells l).length),
      ((fullCells l)[m]).first_particle ≤ l.length := by
    intro m hm
    have := fullCells_first_mono l hsorted hlt m ((fullCells l).length - 1)
      (by omega) (by omega)
    rw [hlastC] at this
    exact this
  have hin_le : ∀ m (hm : m < (fullCells l).length),
      Morton.is_in_rect_presplit ((fullCells l)[m]).cidx (Morton.part_1by1 xmin)
        (2 * Morton.part_1by1 ymin) (Morton.part_1by1 xmax)
        (2 * Morton.part_1by1 ymax) = true →
      ((fullCells l)[m]).cidx ≤ Morton.encode xmax ymax := by
    intro m hm hin
    have h4 : ((fullCells l)[m]).cidx < 4 ^ 16 := by
      have h1 := hcode_le m hm
      have : u32Max < 4 ^ 16 := by norm_num [u32Max]
      omega
    exact (Morton.in_rect_code_between ((fullCells l)[m]).cidx xmin ymin xmax ymax
      h4 hin).2
  intro fuel
  induction fuel with
  | zero => intro idx hidx hfuel; omega
  | succ fuel ih =>
    intro idx hidx hfuel
    have hget : (fullCells l).get? idx = some ((fullCells l)[idx]) := by
      rw [List.get?_eq_getElem?, List.getElem?_eq_getElem hidx]
    rw [outerLoop, hget]
    dsimp only
    by_cases htop : ((fullCells l)[idx]).cidx > Morton.encode xmax ymax
    · rw [if_pos htop]
      refine ⟨[], rfl, ?_⟩
      intro pid
      simp only [List.not_mem_nil, false_iff]
      intro ⟨m, hm1, hm0, hm1p, hm3, _⟩
      have hle := hin_le m hm0 hm3
      have := sorted_cells_le (fullCells l) hsC idx m hidx hm0 hm1
      omega
    · rw [if_neg htop]
      push_neg at htop
      obtain ⟨r, hr, hspec⟩ := skipLoop_spec (fullCells l) hsC hpos hlastc
        xmin ymin xmax ymax hxmin hymin hxmax hymax hmx hmy hcmaxlt
        ((fullCells l).length + 1) idx 0 hidx htop (by omega)
      rw [hr]
      rcases hspec with ⟨j, hj1, hj2, hj3, hj4, hj5⟩ | ⟨hn, hall⟩
      · subst hj1
        dsimp only
        have hgetA : (fullCells l).get? j = some ((fullCells l)[j]) := by
          rw [List.get?_eq_getElem?, List.getElem?_eq_getElem hj3]
        rw [hgetA]
        dsimp only
        obtain ⟨⟨idxB, last⟩, hq, hq1, hqB, hqnot, hqlast, hqall⟩ :=
          consumeScan_spec (fullCells l) hsC hpos hlastc
            xmin ymin xmax ymax hxmin hymin hxmax hymax hmx hmy hcmaxlt
            ((fullCells l).length + 1) j hj3 hj4 (by omega)
        dsimp only at hq1 hqB hqnot hqlast hqall
        rw [hq]
        dsimp only
        rw [hqlast]
        have hjB : ((fullCells l)[j]).first_particle ≤
            ((fullCells l)[idxB]).first_particle :=
          fullCells_first_mono l hsorted hlt j idxB (by omega) hqB
        have hBle := hfirst_le idxB hqB
        obtain ⟨ids1, hids1, hmem1⟩ := particleIds_range l
          (((fullCells l)[idxB]).first_particle - ((fullCells l)[j]).first_particle)
          (((fullCells l)[j]).first_particle) (by omega)
        have heq : ((fullCells l)[j]).first_particle +
            (((fullCells l)[idxB]).first_particle -
              ((fullCells l)[j]).first_particle) =
            ((fullCells l)[idxB]).first_particle := by omega
        rw [heq] at hmem1
        rw [hids1]
        dsimp only
        have hchunk : ∀ pid, pid ∈ ids1 ↔ ∃ m, j ≤ m ∧ m < idxB ∧
            ∃ hm0 : m < (fullCells l).length,
            ∃ hm1 : m + 1 < (fullCells l).length,
            Morton.is_in_rect_presplit ((fullCells l)[m]).cidx (Morton.part_1by1 xmin)
              (2 * Morton.part_1by1 ymin) (Morton.part_1by1 xmax)
              (2 * Morton.part_1by1 ymax) = true ∧
            ∃ k, ((fullCells l)[m]).first_particle ≤ k ∧
              k < ((fullCells l)[m + 1]).first_particle ∧ ∃ hk : k < l.length,
              (l[k]).pidx = pid := by
          intro pid
          rw [hmem1 pid]
          constructor
          · intro ⟨k, hk1, hk2, hk3, hk4⟩
            obtain ⟨m, hm1, hm2, hm3, hm4, hm5⟩ :=
              (fullCells_run_decomp2 l hsorted hlt j idxB hq1 hqB k).mp ⟨hk1, hk2⟩
            refine ⟨m, hm1, hm2, by omega, hm3, ?_, k, hm4, hm5, hk3, hk4⟩
            rcases Nat.eq_or_lt_of_le hm1 with h | h
            · exact h ▸ hj4
            · exact hqall m (by omega) h hm2
          · intro ⟨m, hm1, hm2, hm0, hm1p, hmin, k, hk1, hk2, hk3, hk4⟩
            refine ⟨k, ?_, ?_, hk3, hk4⟩
            · have := fullCells_first_mono l hsorted hlt j m hm1 hm0
              omega
            · have := fullCells_first_mono l hsorted hlt (m + 1) idxB (by omega) hqB
              omega
        by_cases hend : idxB + 1 ≥ (fullCells l).length
        · rw [if_pos hend]
          refine ⟨ids1, rfl, ?_⟩
          intro pid
          rw [hchunk pid]
          constructor
          · intro ⟨m, hm1, hm2, hm0, hm1p, hmin, hrest⟩
            exact ⟨m, by omega, hm0, hm1p, hmin, hrest⟩
          · intro ⟨m, hm1, hm0, hm1p, hm3, hrest⟩
            rcases Nat.lt_or_ge m j with h | h
            · exact absurd hm3 (hj5 m hm0 hm1 h)
            · rcases Nat.lt_or_ge m idxB with h2 | h2
              · exact ⟨m, h, h2, hm0, hm1p, hm3, hrest⟩
              · rcases Nat.eq_or_lt_of_le h2 with h3 | h3
                · exact absurd hm3 (h3 ▸ hqnot)
                · omega
        · rw [if_neg hend]
          push_neg at hend
          obtain ⟨ids2, hids2, hmem2⟩ := ih (idxB + 1) hend (by omega)
          rw [hids2]
          refine ⟨ids1 ++ ids2, rfl, ?_⟩
          intro pid
          rw [List.mem_append, hchunk pid, hmem2 pid]
          constructor
          · intro h
            rcases h with ⟨m, hm1, hm2, hm0, hm1p, hmin, hrest⟩ |
              ⟨m, hm1, hm0, hm1p, hm3, hrest⟩
            · exact ⟨m, by omega, hm0, hm1p, hmin, hrest⟩
            · exact ⟨m, by omega, hm0, hm1p, hm3, hrest⟩
          · intro ⟨m, hm1, hm0, hm1p, hm3, hrest⟩
            rcases Nat.lt_or_ge m j with h | h
            · exact absurd hm3 (hj5 m hm0 hm1 h)
            · rcases Nat.lt_or_ge m idxB with h2 | h2
              · exact Or.inl ⟨m, h, h2, hm0, hm1p, hm3, hrest⟩
              · rcases Nat.eq_or_lt_of_le h2 with h3 | h3
                · exact absurd hm3 (h3 ▸ hqnot)
                · exact Or.inr ⟨m, by omega, hm0, hm1p, hm3, hrest⟩
      · subst hn
        dsimp only
        refine ⟨[], rfl, ?_⟩
        intro pid
        simp only [List.not_mem_nil, false_iff]
        intro ⟨m, hm1, hm0, hm1p, hm3, _⟩
        exact hall m hm0 hm1 hm3

end NeighborhoodSearch
end Sph2d

namespace Sph2d
namespace Morton

/-- Bit spreading is monotone. -/
theorem part_1by1_mono (x x' : ℕ) (hx' : x' < 2 ^ 16) (hxx : x ≤ x') :
    part_1by1 x ≤ part_1by1 x' := by
  rw [part_1by1, part_1by1]
  exact (part1by1Aux_le_iff 16 x x' (by omega) hx').mpr hxx

/-- Morton codes are monotone in both cell coordinates. -/
theorem encode_mono (x y x' y' : ℕ) (hx' : x' < 2 ^ 16) (hy' : y' < 2 ^ 16)
    (hxx : x ≤ x') (hyy : y ≤ y') : encode x y ≤ encode x' y' := by
  rw [encode, encode]
  have h1 := part_1by1_mono x x' hx' hxx
  have h2 := part_1by1_mono y y' hy' hyy
  omega

/-- Codes of cells at coordinates up to 65534 stay below the sentinel. -/
theorem encode_lt_max (x y : ℕ) (hx : x ≤ 65534) (hy : y ≤ 65534) :
    encode x y < u32Max := by
  have h1 : encode x y ≤ encode 65534 65534 :=
    encode_mono x y 65534 65534 (by norm_num) (by norm_num) hx hy
  have h2 : encode 65534 65534 < u32Max := by decide
  omega

end Morton

namespace NeighborhoodSearch

/-- Cell positions are monotone in the position (for a nonnegative grid
scale). -/
theorem position_to_cellpos_mono (gm : Vec) (inv : ℚ) (hinv : 0 ≤ inv)
    (p q : Vec) (hx : p.1 ≤ q.1) (hy : p.2 ≤ q.2) :
    (position_to_cellpos gm inv p).x ≤ (position_to_cellpos gm inv q).x ∧
      (position_to_cellpos gm inv p).y ≤ (position_to_cellpos gm inv q).y := by
  rw [position_to_cellpos, position_to_cellpos]
  constructor
  · refine min_le_min ?_ le_rfl
    refine Nat.floor_le_floor ?_
    simp only [Prod.smul_fst, Prod.fst_sub, smul_eq_mul]
    exact mul_le_mul_of_nonneg_left (by linarith) hinv
  · refine min_le_min ?_ le_rfl
    refine Nat.floor_le_floor ?_
    simp only [Prod.smul_snd, Prod.snd_sub, smul_eq_mul]
    exact mul_le_mul_of_nonneg_left (by linarith) hinv

/-- On a fresh index the size-adjustment step enumerates the particle ids
`0, …, N-1`. -/
theorem extendedParticles_new (radius : ℚ) (positions : List Vec) :
    extendedParticles (new radius) positions
      = (List.range' 0 positions.length).map (fun i => { pidx := i, cidx := 0 }) := by
  rw [extendedParticles, new]
  simp

/-- On a fresh index every position index appears in the rebuilt particle
array, paired with the cell code of its position. -/
theorem sortedParticles_surj (radius : ℚ) (positions : List Vec)
    (j : ℕ) (hj : j < positions.length) :
    ∃ k, ∃ hk : k < (sortedParticles (new radius) positions).length,
      ((sortedParticles (new radius) positions)[k]).pidx = j ∧
      ((sortedParticles (new radius) positions)[k]).cidx
        = position_to_cidx (new radius).grid_min (new radius).cell_size_inv
            (positions.getD j 0) := by
  have hmemmap : ((⟨j, position_to_cidx (new radius).grid_min
        (new radius).cell_size_inv (positions.getD j 0)⟩ : Particle))
      ∈ (extendedParticles (new radius) positions).map (fun p =>
        { pidx := p.pidx
          cidx := position_to_cidx (new radius).grid_min (new radius).cell_size_inv
            (positions.getD p.pidx 0) : Particle }) := by
    rw [extendedParticles_new, List.map_map]
    rw [List.mem_map]
    refine ⟨j, ?_, rfl⟩
    rw [List.mem_range'_1]
    omega
  have hmem : ((⟨j, position_to_cidx (new radius).grid_min
        (new radius).cell_size_inv (positions.getD j 0)⟩ : Particle))
      ∈ sortedParticles (new radius) positions := by
    rw [sortedParticles]
    exact (List.perm_insertionSort _ _).symm.subset hmemmap
  obtain ⟨k, hk, hke⟩ := List.mem_iff_getElem.mp hmem
  exact ⟨k, hk, by rw [hke], by rw [hke]⟩

end NeighborhoodSearch
end Sph2d

namespace Sph2d
namespace NeighborhoodSearch

/-- The spec-side predicate the amended claim compares the traversal against:
the grid cell of a position lies inside the cell-space bounding box spanned by
the cells of `p - (r, r)` and `p + (r, r)`. -/
def cellInBox (cpmin cpmax cp : CellPos) : Prop :=
  cpmin.x ≤ cp.x ∧ cp.x ≤ cpmax.x ∧ cpmin.y ≤ cp.y ∧ cp.y ≤ cpmax.y

end NeighborhoodSearch

/-- C2 (amended): on a freshly built index over positions whose cells lie in
the representable grid (cell coordinates at most 65534, radius positive), the
query `foreach_potential_neighbor(p)` panics never and invokes its visitor
exactly for the particle ids whose grid cell lies in the cell-space bounding
box spanned by the cells of `p - (r, r)` and `p + (r, r)` — a superset of the
true neighborhood, with no distance test at all. -/
theorem foreach_potential_neighbor_box (radius : ℚ) (positions : List Vec)
    (s : NeighborhoodSearch) (position : Vec)
    (hup : NeighborhoodSearch.update (NeighborhoodSearch.new radius) positions
      = some s)
    (hr : 0 < radius)
    (hgridp : ∀ q ∈ positions,
      (NeighborhoodSearch.position_to_cellpos s.grid_min s.cell_size_inv q).x
          ≤ 65534 ∧
        (NeighborhoodSearch.position_to_cellpos s.grid_min s.cell_size_inv q).y
          ≤ 65534)
    (hgmin : (NeighborhoodSearch.position_to_cellpos s.grid_min s.cell_size_inv
          (position - (s.radius, s.radius))).x ≤ 65534 ∧
        (NeighborhoodSearch.position_to_cellpos s.grid_min s.cell_size_inv
          (position - (s.radius, s.radius))).y ≤ 65534)
    (hgmax : (NeighborhoodSearch.position_to_cellpos s.grid_min s.cell_size_inv
          (position + (s.radius, s.radius))).x ≤ 65534 ∧
        (NeighborhoodSearch.position_to_cellpos s.grid_min s.cell_size_inv
          (position + (s.radius, s.radius))).y ≤ 65534) :
    ∃ ids, NeighborhoodSearch.foreach_potential_neighbor s position = some ids ∧
      ∀ pid, pid ∈ ids ↔ ∃ j, ∃ hj : j < positions.length, pid = j ∧
        NeighborhoodSearch.cellInBox
          (NeighborhoodSearch.position_to_cellpos s.grid_min s.cell_size_inv
            (position - (s.radius, s.radius)))
          (NeighborhoodSearch.position_to_cellpos s.grid_min s.cell_size_inv
            (position + (s.radius, s.radius)))
          (NeighborhoodSearch.position_to_cellpos s.grid_min s.cell_size_inv
            (positions[j])) := by
  obtain ⟨hge, hall, hs⟩ := NeighborhoodSearch.update_eq_some _ _ _ hup
  subst hs
  dsimp only at hgridp hgmin hgmax ⊢
  have hsorted := NeighborhoodSearch.sortedParticles_sorted
    (NeighborhoodSearch.new radius) positions
  have hlen := NeighborhoodSearch.sortedParticles_length
    (NeighborhoodSearch.new radius) positions hge
  have hmem := NeighborhoodSearch.sortedParticles_mem
    (NeighborhoodSearch.new radius) positions hall
  have hcode : ∀ q ∈ positions, NeighborhoodSearch.position_to_cidx
      (NeighborhoodSearch.new radius).grid_min
      (NeighborhoodSearch.new radius).cell_size_inv q < u32Max := by
    intro q hq
    have h := hgridp q hq
    rw [NeighborhoodSearch.position_to_cidx, NeighborhoodSearch.cellpos_to_cidx]
    exact Morton.encode_lt_max _ _ h.1 h.2
  have hlt := NeighborhoodSearch.sortedParticles_lt_max
    (NeighborhoodSearch.new radius) positions hall hcode
  have hinv : (0 : ℚ) ≤ (NeighborhoodSearch.new radius).cell_size_inv := by
    show (0 : ℚ) ≤ 1 / (radius * 2)
    exact le_of_lt (div_pos one_pos (by linarith))
  have hrr : (NeighborhoodSearch.new radius).radius = radius := rfl
  have hmono := NeighborhoodSearch.position_to_cellpos_mono
    (NeighborhoodSearch.new radius).grid_min
    (NeighborhoodSearch.new radius).cell_size_inv hinv
    (position - ((NeighborhoodSearch.new radius).radius,
      (NeighborhoodSearch.new radius).radius))
    (position + ((NeighborhoodSearch.new radius).radius,
      (NeighborhoodSearch.new radius).radius))
    (by simp only [Prod.fst_sub, Prod.fst_add, hrr]; linarith)
    (by simp only [Prod.snd_sub, Prod.snd_add, hrr]; linarith)
  have hxmin : (NeighborhoodSearch.position_to_cellpos
      (NeighborhoodSearch.new radius).grid_min
      (NeighborhoodSearch.new radius).cell_size_inv
      (position - ((NeighborhoodSearch.new radius).radius,
        (NeighborhoodSearch.new radius).radius))).x < 2 ^ 16 := by
    have := hgmin.1
    omega
  have hymin : (NeighborhoodSearch.position_to_cellpos
      (NeighborhoodSearch.new radius).grid_min
      (NeighborhoodSearch.new radius).cell_size_inv
      (position - ((NeighborhoodSearch.new radius).radius,
        (NeighborhoodSearch.new radius).radius))).y < 2 ^ 16 := by
    have := hgmin.2
    omega
  have hxmax : (NeighborhoodSearch.position_to_cellpos
      (NeighborhoodSearch.new radius).grid_min
      (NeighborhoodSearch.new radius).cell_size_inv
      (position + ((NeighborhoodSearch.new radius).radius,
        (NeighborhoodSearch.new radius).radius))).x < 2 ^ 16 := by
    have := hgmax.1
    omega
  have hymax : (NeighborhoodSearch.position_to_cellpos
      (NeighborhoodSearch.new radius).grid_min
      (NeighborhoodSearch.new radius).cell_size_inv
      (position + ((NeighborhoodSearch.new radius).radius,
        (NeighborhoodSearch.new radius).radius))).y < 2 ^ 16 := by
    have := hgmax.2
    omega
  have hcmaxlt := Morton.encode_lt_max _ _ hgmax.1 hgmax.2
  have hcminlt := Morton.encode_lt_max _ _ hgmin.1 hgmin.2
  have hsC := NeighborhoodSearch.fullCells_sorted _ hsorted hlt
  have hposC := NeighborhoodSearch.fullCells_length_pos
    (NeighborhoodSearch.sortedParticles (NeighborhoodSearch.new radius) positions)
  have hlastC := NeighborhoodSearch.fullCells_last
    (NeighborhoodSearch.sortedParticles (NeighborhoodSearch.new radius) positions)
    (by omega)
  have hlastc := congrArg Cell.cidx hlastC
  dsimp only at hlastc
  have hcode_le := NeighborhoodSearch.fullCells_code_le _ hsorted hlt
  have fcc := NeighborhoodSearch.find_next_cell_correct
    (NeighborhoodSearch.fullCells
      (NeighborhoodSearch.sortedParticles (NeighborhoodSearch.new radius) positions))
    (Morton.encode
      (NeighborhoodSearch.position_to_cellpos
        (NeighborhoodSearch.new radius).grid_min
        (NeighborhoodSearch.new radius).cell_size_inv
        (position - ((NeighborhoodSearch.new radius).radius,
          (NeighborhoodSearch.new radius).radius))).x
      (NeighborhoodSearch.position_to_cellpos
        (NeighborhoodSearch.new radius).grid_min
        (NeighborhoodSearch.new radius).cell_size_inv
        (position - ((NeighborhoodSearch.new radius).radius,
          (NeighborhoodSearch.new radius).radius))).y) hsC
  have hi0 : NeighborhoodSearch.find_next_cell
      (NeighborhoodSearch.fullCells
        (NeighborhoodSearch.sortedParticles (NeighborhoodSearch.new radius) positions))
      (Morton.encode
        (NeighborhoodSearch.position_to_cellpos
          (NeighborhoodSearch.new radius).grid_min
          (NeighborhoodSearch.new radius).cell_size_inv
          (position - ((NeighborhoodSearch.new radius).radius,
            (NeighborhoodSearch.new radius).radius))).x
        (NeighborhoodSearch.position_to_cellpos
          (NeighborhoodSearch.new radius).grid_min
          (NeighborhoodSearch.new radius).cell_size_inv
          (position - ((NeighborhoodSearch.new radius).radius,
            (NeighborhoodSearch.new radius).radius))).y)
      < (NeighborhoodSearch.fullCells
        (NeighborhoodSearch.sortedParticles (NeighborhoodSearch.new radius)
          positions)).length := by
    rcases Nat.lt_or_ge (NeighborhoodSearch.find_next_cell _ _)
      ((NeighborhoodSearch.fullCells
        (NeighborhoodSearch.sortedParticles (NeighborhoodSearch.new radius)
          positions)).length) with h | h
    · exact h
    · exfalso
      have h1 := fcc.2.1 ((NeighborhoodSearch.fullCells
        (NeighborhoodSearch.sortedParticles (NeighborhoodSearch.new radius)
          positions)).length - 1) (by omega) (by omega)
      rw [hlastc] at h1
      omega
  have hpre : ∀ m (hm : m < (NeighborhoodSearch.fullCells
      (NeighborhoodSearch.sortedParticles (NeighborhoodSearch.new radius)
        positions)).length),
      m < NeighborhoodSearch.find_next_cell
        (NeighborhoodSearch.fullCells
          (NeighborhoodSearch.sortedParticles (NeighborhoodSearch.new radius)
            positions))
        (Morton.encode
          (NeighborhoodSearch.position_to_cellpos
            (NeighborhoodSearch.new radius).grid_min
            (NeighborhoodSearch.new radius).cell_size_inv
            (position - ((NeighborhoodSearch.new radius).radius,
              (NeighborhoodSearch.new radius).radius))).x
          (NeighborhoodSearch.position_to_cellpos
            (NeighborhoodSearch.new radius).grid_min
            (NeighborhoodSearch.new radius).cell_size_inv
            (position - ((NeighborhoodSearch.new radius).radius,
              (NeighborhoodSearch.new radius).radius))).y) →
      ¬ Morton.is_in_rect_presplit ((NeighborhoodSearch.fullCells
          (NeighborhoodSearch.sortedParticles (NeighborhoodSearch.new radius)
            positions))[m]).cidx
        (Morton.part_1by1 (NeighborhoodSearch.position_to_cellpos
          (NeighborhoodSearch.new radius).grid_min
          (NeighborhoodSearch.new radius).cell_size_inv
          (position - ((NeighborhoodSearch.new radius).radius,
            (NeighborhoodSearch.new radius).radius))).x)
        (2 * Morton.part_1by1 (NeighborhoodSearch.position_to_cellpos
          (NeighborhoodSearch.new radius).grid_min
          (NeighborhoodSearch.new radius).cell_size_inv
          (position - ((NeighborhoodSearch.new radius).radius,
            (NeighborhoodSearch.new radius).radius))).y)
        (Morton.part_1by1 (NeighborhoodSearch.position_to_cellpos
          (NeighborhoodSearch.new radius).grid_min
          (NeighborhoodSearch.new radius).cell_size_inv
          (position + ((NeighborhoodSearch.new radius).radius,
            (NeighborhoodSearch.new radius).radius))).x)
        (2 * Morton.part_1by1 (NeighborhoodSearch.position_to_cellpos
          (NeighborhoodSearch.new radius).grid_min
          (NeighborhoodSearch.new radius).cell_size_inv
          (position + ((NeighborhoodSearch.new radius).radius,
            (NeighborhoodSearch.new radius).radius))).y) = true := by
    intro m hm hmi hin
    have h1 := fcc.2.1 m hm hmi
    have h4 : ((NeighborhoodSearch.fullCells
        (NeighborhoodSearch.sortedParticles (NeighborhoodSearch.new radius)
          positions))[m]).cidx < 4 ^ 16 := by
      have h2 := hcode_le m hm
      have : u32Max < 4 ^ 16 := by norm_num [u32Max]
      omega
    have h3 := (Morton.in_rect_code_between _ _ _ _ _ h4 hin).1
    omega
  obtain ⟨ids, hids, hiff⟩ := NeighborhoodSearch.outerLoop_spec
    (NeighborhoodSearch.sortedParticles (NeighborhoodSearch.new radius) positions)
    hsorted hlt _ _ _ _ hxmin hymin hxmax hymax hmono.1 hmono.2 hcmaxlt
    ((NeighborhoodSearch.fullCells
      (NeighborhoodSearch.sortedParticles (NeighborhoodSearch.new radius)
        positions)).length + 1)
    (NeighborhoodSearch.find_next_cell
      (NeighborhoodSearch.fullCells
        (NeighborhoodSearch.sortedParticles (NeighborhoodSearch.new radius) positions))
      (Morton.encode
        (NeighborhoodSearch.position_to_cellpos
          (NeighborhoodSearch.new radius).grid_min
          (NeighborhoodSearch.new radius).cell_size_inv
          (position - ((NeighborhoodSearch.new radius).radius,
            (NeighborhoodSearch.new radius).radius))).x
        (NeighborhoodSearch.position_to_cellpos
          (NeighborhoodSearch.new radius).grid_min
          (NeighborhoodSearch.new radius).cell_size_inv
          (position - ((NeighborhoodSearch.new radius).radius,
            (NeighborhoodSearch.new radius).radius))).y))
    hi0 (by omega)
  refine ⟨ids, ?_, ?_⟩
  · exact hids
  · intro pid
    rw [hiff pid]
    constructor
    · rintro ⟨m, hmi0, hm0, hm1, hin, k, hk1, hk2, hk, hpid⟩
      have hcid := (NeighborhoodSearch.fullCells_slice _ hsorted hlt m hm1 k hk).mp
        ⟨hk1, hk2⟩
      obtain ⟨hjlt, hcidx⟩ := hmem _ (List.getElem_mem hk)
      refine ⟨((NeighborhoodSearch.sortedParticles (NeighborhoodSearch.new radius)
        positions)[k]).pidx, hjlt, hpid.symm, ?_⟩
      have hinL : Morton.is_in_rect_presplit
          (((NeighborhoodSearch.sortedParticles (NeighborhoodSearch.new radius)
            positions))[k]).cidx
          (Morton.part_1by1 (NeighborhoodSearch.position_to_cellpos
            (NeighborhoodSearch.new radius).grid_min
            (NeighborhoodSearch.new radius).cell_size_inv
            (position - ((NeighborhoodSearch.new radius).radius,
              (NeighborhoodSearch.new radius).radius))).x)
          (2 * Morton.part_1by1 (NeighborhoodSearch.position_to_cellpos
            (NeighborhoodSearch.new radius).grid_min
            (NeighborhoodSearch.new radius).cell_size_inv
            (position - ((NeighborhoodSearch.new radius).radius,
              (NeighborhoodSearch.new radius).radius))).y)
          (Morton.part_1by1 (NeighborhoodSearch.position_to_cellpos
            (NeighborhoodSearch.new radius).grid_min
            (NeighborhoodSearch.new radius).cell_size_inv
            (position + ((NeighborhoodSearch.new radius).radius,
              (NeighborhoodSearch.new radius).radius))).x)
          (2 * Morton.part_1by1 (NeighborhoodSearch.position_to_cellpos
            (NeighborhoodSearch.new radius).grid_min
            (NeighborhoodSearch.new radius).cell_size_inv
            (position + ((NeighborhoodSearch.new radius).radius,
              (NeighborhoodSearch.new radius).radius))).y) = true := by
        rw [hcid]
        exact hin
      rw [hcidx, NeighborhoodSearch.position_to_cidx,
        NeighborhoodSearch.cellpos_to_cidx] at hinL
      have he : positions.getD ((NeighborhoodSearch.sortedParticles
          (NeighborhoodSearch.new radius) positions)[k]).pidx (0, 0)
          = positions[((NeighborhoodSearch.sortedParticles
            (NeighborhoodSearch.new radius) positions)[k]).pidx] :=
        List.getD_eq_getElem positions (0, 0) hjlt
      rw [he] at hinL
      have hb := hgridp _ (List.getElem_mem hjlt)
      rw [NeighborhoodSearch.cellInBox]
      exact (Morton.is_in_rect_presplit_iff _ _ _ _ _ _
        (by omega) (by omega) hxmin hymin hxmax hymax).mp hinL
    · rintro ⟨j, hj, hpideq, hbox⟩
      obtain ⟨k, hk, hkpidx, hkcidx⟩ := NeighborhoodSearch.sortedParticles_surj
        radius positions j hj
      have he : positions.getD j 0 = positions[j] :=
        List.getD_eq_getElem positions 0 hj
      have hb := hgridp _ (List.getElem_mem hj)
      have hinL : Morton.is_in_rect_presplit
          (((NeighborhoodSearch.sortedParticles (NeighborhoodSearch.new radius)
            positions))[k]).cidx
          (Morton.part_1by1 (NeighborhoodSearch.position_to_cellpos
            (NeighborhoodSearch.new radius).grid_min
            (NeighborhoodSearch.new radius).cell_size_inv
            (position - ((NeighborhoodSearch.new radius).radius,
              (NeighborhoodSearch.new radius).radius))).x)
          (2 * Morton.part_1by1 (NeighborhoodSearch.position_to_cellpos
            (NeighborhoodSearch.new radius).grid_min
            (NeighborhoodSearch.new radius).cell_size_inv
            (position - ((NeighborhoodSearch.new radius).radius,
              (NeighborhoodSearch.new radius).radius))).y)
          (Morton.part_1by1 (NeighborhoodSearch.position_to_cellpos
            (NeighborhoodSearch.new radius).grid_min
            (NeighborhoodSearch.new radius).cell_size_inv
            (position + ((NeighborhoodSearch.new radius).radius,
              (NeighborhoodSearch.new radius).radius))).x)
          (2 * Morton.part_1by1 (NeighborhoodSearch.position_to_cellpos
            (NeighborhoodSearch.new radius).grid_min
            (NeighborhoodSearch.new radius).cell_size_inv
            (position + ((NeighborhoodSearch.new radius).radius,
              (NeighborhoodSearch.new radius).radius))).y) = true := by
        rw [hkcidx, NeighborhoodSearch.position_to_cidx,
          NeighborhoodSearch.cellpos_to_cidx, he]
        rw [NeighborhoodSearch.cellInBox] at hbox
        exact (Morton.is_in_rect_presplit_iff _ _ _ _ _ _
          (by omega) (by omega) hxmin hymin hxmax hymax).mpr hbox
      obtain ⟨m, hm1, hcidm⟩ := NeighborhoodSearch.fullCells_coverage _ hsorted hlt k hk
      have hm0 : m < (NeighborhoodSearch.fullCells
          (NeighborhoodSearch.sortedParticles (NeighborhoodSearch.new radius)
            positions)).length := by omega
      have hrun := (NeighborhoodSearch.fullCells_slice _ hsorted hlt m hm1 k hk).mpr
        hcidm.symm
      have hinC : Morton.is_in_rect_presplit
          (((NeighborhoodSearch.fullCells
            (NeighborhoodSearch.sortedParticles (NeighborhoodSearch.new radius)
              positions))[m]).cidx)
          (Morton.part_1by1 (NeighborhoodSearch.position_to_cellpos
            (NeighborhoodSearch.new radius).grid_min
            (NeighborhoodSearch.new radius).cell_size_inv
            (position - ((NeighborhoodSearch.new radius).radius,
              (NeighborhoodSearch.new radius).radius))).x)
          (2 * Morton.part_1by1 (NeighborhoodSearch.position_to_cellpos
            (NeighborhoodSearch.new radius).grid_min
            (NeighborhoodSearch.new radius).cell_size_inv
            (position - ((NeighborhoodSearch.new radius).radius,
              (NeighborhoodSearch.new radius).radius))).y)
          (Morton.part_1by1 (NeighborhoodSearch.position_to_cellpos
            (NeighborhoodSearch.new radius).grid_min
            (NeighborhoodSearch.new radius).cell_size_inv
            (position + ((NeighborhoodSearch.new radius).radius,
              (NeighborhoodSearch.new radius).radius))).x)
          (2 * Morton.part_1by1 (NeighborhoodSearch.position_to_cellpos
            (NeighborhoodSearch.new radius).grid_min
            (NeighborhoodSearch.new radius).cell_size_inv
            (position + ((NeighborhoodSearch.new radius).radius,
              (NeighborhoodSearch.new radius).radius))).y) = true := by
        rw [hcidm]
        exact hinL
      have hmge : NeighborhoodSearch.find_next_cell
          (NeighborhoodSearch.fullCells
            (NeighborhoodSearch.sortedParticles (NeighborhoodSearch.new radius)
              positions))
          (Morton.encode
            (NeighborhoodSearch.position_to_cellpos
              (NeighborhoodSearch.new radius).grid_min
              (NeighborhoodSearch.new radius).cell_size_inv
              (position - ((NeighborhoodSearch.new radius).radius,
                (NeighborhoodSearch.new radius).radius))).x
            (NeighborhoodSearch.position_to_cellpos
              (NeighborhoodSearch.new radius).grid_min
              (NeighborhoodSearch.new radius).cell_size_inv
              (position - ((NeighborhoodSearch.new radius).radius,
                (NeighborhoodSearch.new radius).radius))).y) ≤ m := by
        by_contra hcon
        push_neg at hcon
        exact hpre m hm0 hcon hinC
      refine ⟨m, hmge, hm0, hm1, hinC, k, hrun.1, hrun.2, hk, ?_⟩
      rw [hkpidx, hpideq]

end Sph2d

namespace Sph2d

/-- One position whose cell (51, 51) lies inside the query box of the query
below even though the point is far outside the query radius. -/
def nsC2pos : List Vec := [((29 / 10 : ℚ), (29 / 10 : ℚ))]

/-- The index built by `update` over `nsC2pos` with radius 1: one particle
with Morton code 3855 (cell (51, 51)) and the two-cell table. -/
def sC2 : NeighborhoodSearch :=
  { NeighborhoodSearch.new 1 with
    particles := [{ pidx := 0, cidx := 3855 }]
    cells := [{ first_particle := 0, cidx := 3855 },
      { first_particle := 1, cidx := u32Max }] }

theorem cellposC2_p :
    NeighborhoodSearch.position_to_cellpos sC2.grid_min sC2.cell_size_inv
      ((29 / 10 : ℚ), (29 / 10 : ℚ)) = ⟨51, 51⟩ := by
  rw [NeighborhoodSearch.position_to_cellpos]
  have h1 : sC2.cell_size_inv • (((29 / 10 : ℚ), (29 / 10 : ℚ)) - sC2.grid_min)
      = ((1029 / 20 : ℚ), (1029 / 20 : ℚ)) := by
    show ((1 / (1 * 2) : ℚ)) • (((29 / 10 : ℚ), (29 / 10 : ℚ))
      - ((-100 : ℚ), (-100 : ℚ))) = ((1029 / 20 : ℚ), (1029 / 20 : ℚ))
    simp [Prod.ext_iff]
    norm_num
  rw [h1]
  have h2 : (⌊(1029 / 20 : ℚ)⌋₊ : ℕ) = 51 := by norm_num [Nat.floor_eq_iff]
  simp only [h2]
  rw [show min 51 u32Max = 51 from by norm_num [u32Max]]

theorem cellposC2_min :
    NeighborhoodSearch.position_to_cellpos sC2.grid_min sC2.cell_size_inv
      (((1 : ℚ), (1 : ℚ)) - (sC2.radius, sC2.radius)) = ⟨50, 50⟩ := by
  rw [NeighborhoodSearch.position_to_cellpos]
  have h1 : sC2.cell_size_inv • ((((1 : ℚ), (1 : ℚ)) - (sC2.radius, sC2.radius))
      - sC2.grid_min) = ((50 : ℚ), (50 : ℚ)) := by
    show ((1 / (1 * 2) : ℚ)) • ((((1 : ℚ), (1 : ℚ)) - ((1 : ℚ), (1 : ℚ)))
      - ((-100 : ℚ), (-100 : ℚ))) = ((50 : ℚ), (50 : ℚ))
    simp [Prod.ext_iff]
    norm_num
  rw [h1]
  have h2 : (⌊(50 : ℚ)⌋₊ : ℕ) = 50 := by norm_num
  simp only [h2]
  rw [show min 50 u32Max = 50 from by norm_num [u32Max]]

theorem cellposC2_max :
    NeighborhoodSearch.position_to_cellpos sC2.grid_min sC2.cell_size_inv
      (((1 : ℚ), (1 : ℚ)) + (sC2.radius, sC2.radius)) = ⟨51, 51⟩ := by
  rw [NeighborhoodSearch.position_to_cellpos]
  have h1 : sC2.cell_size_inv • ((((1 : ℚ), (1 : ℚ)) + (sC2.radius, sC2.radius))
      - sC2.grid_min) = ((51 : ℚ), (51 : ℚ)) := by
    show ((1 / (1 * 2) : ℚ)) • ((((1 : ℚ), (1 : ℚ)) + ((1 : ℚ), (1 : ℚ)))
      - ((-100 : ℚ), (-100 : ℚ))) = ((51 : ℚ), (51 : ℚ))
    simp [Prod.ext_iff]
    norm_num
  rw [h1]
  have h2 : (⌊(51 : ℚ)⌋₊ : ℕ) = 51 := by norm_num
  simp only [h2]
  rw [show min 51 u32Max = 51 from by norm_num [u32Max]]

theorem updateC2_eval :
    NeighborhoodSearch.update (NeighborhoodSearch.new 1) nsC2pos = some sC2 := by
  have hcid : NeighborhoodSearch.position_to_cidx
      (NeighborhoodSearch.new 1).grid_min (NeighborhoodSearch.new 1).cell_size_inv
      (nsC2pos.getD 0 0) = 3855 := by
    rw [NeighborhoodSearch.position_to_cidx]
    have hp : nsC2pos.getD 0 0 = ((29 / 10 : ℚ), (29 / 10 : ℚ)) := rfl
    rw [hp]
    have hcp : NeighborhoodSearch.position_to_cellpos
        (NeighborhoodSearch.new 1).grid_min (NeighborhoodSearch.new 1).cell_size_inv
        ((29 / 10 : ℚ), (29 / 10 : ℚ)) = ⟨51, 51⟩ := cellposC2_p
    rw [hcp]
    decide
  have hsp : NeighborhoodSearch.sortedParticles (NeighborhoodSearch.new 1) nsC2pos
      = [{ pidx := 0, cidx := 3855 }] := by
    rw [NeighborhoodSearch.sortedParticles, NeighborhoodSearch.extendedParticles_new]
    rw [show nsC2pos.length = 1 from rfl]
    rw [show List.range' 0 1 = [0] from rfl]
    simp only [List.map_map, List.map_cons, List.map_nil, Function.comp]
    rw [hcid]
    rfl
  have hbc : NeighborhoodSearch.builtCells (NeighborhoodSearch.new 1) nsC2pos
      = [{ first_particle := 0, cidx := 3855 },
        { first_particle := 1, cidx := u32Max }] := by
    rw [NeighborhoodSearch.builtCells, hsp]
    decide
  rw [NeighborhoodSearch.update]
  rw [if_neg (by decide)]
  rw [if_pos (by decide)]
  rw [hsp, hbc]
  rfl

theorem foreachC2_eval :
    NeighborhoodSearch.foreach_potential_neighbor sC2 ((1 : ℚ), (1 : ℚ))
      = some [0] := by
  rw [NeighborhoodSearch.foreach_potential_neighbor]
  rw [cellposC2_min, cellposC2_max]
  decide

end Sph2d

namespace Sph2d

/-- C2 (counterexample to the claim as stated): on the index built over the
single position (2.9, 2.9) with radius 1, the query at (1, 1) invokes the
visitor for particle 0 — `foreach_potential_neighbor` returns exactly [0] —
although the squared distance 7.22 exceeds r² = 1, because the particle's
cell (51, 51) lies in the query's cell box [(50, 50), (51, 51)] and the
traversal applies no distance test. -/
theorem foreach_far_particle_cex :
    NeighborhoodSearch.update (NeighborhoodSearch.new 1) nsC2pos = some sC2 ∧
    NeighborhoodSearch.foreach_potential_neighbor sC2 ((1 : ℚ), (1 : ℚ))
      = some [0] ∧
    ¬ distSq (nsC2pos.getD 0 0) ((1 : ℚ), (1 : ℚ)) ≤ sC2.radius * sC2.radius :=
  ⟨updateC2_eval, foreachC2_eval, by
    rw [show nsC2pos.getD 0 0 = ((29 / 10 : ℚ), (29 / 10 : ℚ)) from rfl]
    rw [show sC2.radius = 1 from rfl]
    norm_num [distSq, normSq, Prod.fst_sub, Prod.snd_sub]⟩

/-- Witness for C2: the amended theorem applied to the concrete one-particle
index, with every hypothesis discharged on concrete values. -/
theorem foreach_potential_neighbor_box_witness :
    (NeighborhoodSearch.update (NeighborhoodSearch.new 1) nsC2pos = some sC2) ∧
    (0 : ℚ) < 1 ∧
    (∃ ids, NeighborhoodSearch.foreach_potential_neighbor sC2 ((1 : ℚ), (1 : ℚ))
        = some ids ∧
      ∀ pid, pid ∈ ids ↔ ∃ j, ∃ hj : j < nsC2pos.length, pid = j ∧
        NeighborhoodSearch.cellInBox
          (NeighborhoodSearch.position_to_cellpos sC2.grid_min sC2.cell_size_inv
            (((1 : ℚ), (1 : ℚ)) - (sC2.radius, sC2.radius)))
          (NeighborhoodSearch.position_to_cellpos sC2.grid_min sC2.cell_size_inv
            (((1 : ℚ), (1 : ℚ)) + (sC2.radius, sC2.radius)))
          (NeighborhoodSearch.position_to_cellpos sC2.grid_min sC2.cell_size_inv
            (nsC2pos[j]))) :=
  ⟨updateC2_eval, by norm_num,
    foreach_potential_neighbor_box 1 nsC2pos sC2 ((1 : ℚ), (1 : ℚ)) updateC2_eval
      (by norm_num)
      (by
        intro q hq
        have hq2 : q = ((29 / 10 : ℚ), (29 / 10 : ℚ)) := List.mem_singleton.mp hq
        subst hq2
        rw [cellposC2_p]
        exact ⟨by decide, by decide⟩)
      (by rw [cellposC2_min]; exact ⟨by decide, by decide⟩)
      (by rw [cellposC2_max]; exact ⟨by decide, by decide⟩)⟩

end Sph2d
